import Mathlib

/-!
# Widgets of `frontend/gui/controls.cpp`

A shallow embedding of the concrete widgets (Label, Image, Button, TextBox, InputBindBox,
TrackBar, CheckBox) and of their event handlers, followed by the content-pack id check of
`content/ContentPack.cpp`.

Conventions of the embedding.

* `float` and `double` quantities are rationals (`ℚ`); `int` arguments are `Int`. Their
  operations are taken as exact, except in the definitions of the track bar that carry
  `IEEE` in their name or doc comment: there every operation is rounded to the nearest
  binary64 or binary32 number (namespace `ieee`), one operation at a time, and an
  operation that leaves the finite numbers has no result (`none`).
* A `std::wstring` is the list of its `wchar_t` units.
* A handler returns the widget after the event together with the list of calls it made to
  application callbacks and to `defocus`, in the order the calls happen.
* A `std::function` slot whose results are used (supplier, validator) is an `Option` of a
  function; a slot that is only invoked (consumer) is the flag "a callback is set", each
  invocation being recorded in the returned list of calls.
* A handler that dereferences a null handle, or converts an out-of-range `double` to `int`,
  has no result (`none`).
-/

/-! # Binary floating point (IEEE 754, round to nearest, ties to even) -/

namespace ieee

/-- The integer nearest to `x`, a tie going to the even one. -/
def roundHalfEven (x : ℚ) : Int :=
  if x - ⌊x⌋ < 1 / 2 then ⌊x⌋
  else if 1 / 2 < x - ⌊x⌋ then ⌊x⌋ + 1
  else if ⌊x⌋ % 2 = 0 then ⌊x⌋
  else ⌊x⌋ + 1

/-- The exponent of the binade of `q > 0` in a format whose least normal exponent is
`emin`: `floor (log2 q)`, and `emin` throughout the subnormal range. -/
def exponent (emin : Int) (q : ℚ) : Int := max (Int.log 2 q) emin

/-- The spacing of the numbers of precision `p` in the binade of `q > 0`. -/
def ulp (p : Nat) (emin : Int) (q : ℚ) : ℚ := (2 : ℚ) ^ (exponent emin q - ((p : Int) - 1))

/-- Rounding of `q > 0` to the nearest number of precision `p`, ties to even. -/
def roundPos (p : Nat) (emin : Int) (q : ℚ) : ℚ :=
  (roundHalfEven (q / ulp p emin q) : ℚ) * ulp p emin q

/-- Rounding to the nearest number of precision `p` with least normal exponent `emin`, ties
to even, before the test for overflow. -/
def roundNearest (p : Nat) (emin : Int) (q : ℚ) : ℚ :=
  if 0 < q then roundPos p emin q
  else if q < 0 then -roundPos p emin (-q)
  else 0

/-- The result of a `double` operation whose exact value is `q`: rounded to binary64, and
no result when the rounded value overflows to an infinity. -/
def binary64 (q : ℚ) : Option ℚ :=
  if |roundNearest 53 (-1022) q| < 2 ^ 1024 then some (roundNearest 53 (-1022) q) else none

/-- The result of a `float` operation whose exact value is `q`: rounded to binary32, and no
result when the rounded value overflows to an infinity. -/
def binary32 (q : ℚ) : Option ℚ :=
  if |roundNearest 24 (-126) q| < 2 ^ 128 then some (roundNearest 24 (-126) q) else none

end ieee

/-! # Widgets -/

namespace gui

/-- The `std::wstring` type: the sequence of `wchar_t` units. -/
abbrev wstring := List Nat

/-- Width of `wchar_t` in bits (GCC and Clang on Linux and macOS). -/
def wcharBits : Nat := 32

/-- The conversion `(wchar_t)codepoint` of an `unsigned int`. -/
def wcharCast (codepoint : Nat) : Nat := codepoint % 2 ^ wcharBits

/-- The `glm::vec2` type. -/
structure vec2 where
  x : ℚ
  y : ℚ
deriving DecidableEq

/-- The `glm::vec4` type. -/
structure vec4 where
  x : ℚ
  y : ℚ
  z : ℚ
  w : ℚ
deriving DecidableEq

/-- Componentwise `a + b` of `glm::vec2`. -/
def vec2.add (a b : vec2) : vec2 := ⟨a.x + b.x, a.y + b.y⟩

/-- Componentwise `a - b` of `glm::vec2`. -/
def vec2.sub (a b : vec2) : vec2 := ⟨a.x - b.x, a.y - b.y⟩

/-- The constructor `glm::vec4(s)` with all four components equal. -/
def vec4.splat (s : ℚ) : vec4 := ⟨s, s, s, s⟩

/-- Text alignment of a label. -/
inductive Align where
  | left
  | center
  | right
deriving DecidableEq

/-- A call made by a handler to the outside: the consumer callback with its argument, or the
node's own `defocus`. -/
inductive Call (α : Type) where
  | consumer (arg : α)
  | defocus
deriving DecidableEq

/-- Commands received by the rendering surface (`Batch2D`, and `Font::draw` on it). -/
inductive DrawCmd where
  | texture (bound : Bool)
  | color (c : vec4)
  | rect (x y w h : ℚ)
  | text (s : wstring) (x y : ℚ)
deriving DecidableEq

/-- A font handle: the measurements `Label::draw` asks of it. -/
structure Font where
  calcWidth : wstring → Int
  lineHeight : Int
  yOffset : Int

/-- A texture handle: its native dimensions. -/
structure Texture where
  width : Int
  height : Int

/-- The asset lookup: a name resolves to a handle or to null. -/
structure Assets where
  getFont : String → Option Font
  getTexture : String → Option Texture

/-- The key codes of `keycode::` that the handlers compare against. Their values are bound
in the window layer; the three codes tested by one handler are pairwise different. -/
structure KeyCodes where
  BACKSPACE : Int
  ENTER : Int
  V : Int
  ESCAPE : Int
  enter_ne_backspace : ENTER ≠ BACKSPACE
  v_ne_backspace : V ≠ BACKSPACE
  v_ne_enter : V ≠ ENTER

/-- The GLFW key numbers. -/
def glfwKeys : KeyCodes where
  BACKSPACE := 259
  ENTER := 257
  V := 86
  ESCAPE := 256
  enter_ne_backspace := by decide
  v_ne_backspace := by decide
  v_ne_enter := by decide

/-! ## UINode -/

/-- The part of `UINode` the widgets below read and write. `origin` is the accumulated
offset of the ancestors (zero for a root node). -/
structure UINode where
  coord : vec2
  size : vec2
  origin : vec2
  color : vec4
  hoverColor : vec4
  hover : Bool
  focused : Bool
  interactive : Bool

/-- A node as `UINode(coord, size)` constructs it. -/
def UINode.new (coord size : vec2) : UINode :=
  { coord := coord, size := size, origin := ⟨0, 0⟩, color := vec4.splat 0,
    hoverColor := vec4.splat 0, hover := false, focused := false, interactive := true }

/-- Modelled from the spec: `UINode::calcCoord` (UINode.cpp is not among the sources). A
node's absolute screen position is the sum of its own local position and all ancestors'
local positions plus their scroll offsets. -/
def UINode.calcCoord (n : UINode) : vec2 := n.origin.add n.coord

/-- Modelled from the spec: `UINode::isInside` (UINode.cpp is not among the sources). It
returns true iff the point lies within the node's absolute box. -/
def UINode.isInside (n : UINode) (pos : vec2) : Bool :=
  decide (n.calcCoord.x ≤ pos.x ∧ n.calcCoord.y ≤ pos.y ∧
    pos.x < n.calcCoord.x + n.size.x ∧ pos.y < n.calcCoord.y + n.size.y)

/-- Modelled from the spec: the base hook `UINode::mouseRelease` (UINode.cpp is not among
the sources). The default hooks are no-ops apart from press bookkeeping, which touches none
of the fields kept in `UINode`. -/
def UINode.mouseRelease (n : UINode) (_x _y : Int) : UINode := n

/-- Modelled from the spec: `UINode::defocus` (UINode.cpp is not among the sources). It
releases the focus the node holds. -/
def UINode.defocus (n : UINode) : UINode := { n with focused := false }

/-- The accessor `UINode::isFocused`. -/
def UINode.isFocused (n : UINode) : Bool := n.focused

/-! ## Label -/

/-- A `Label`; `W` is the application state its supplier reads. -/
structure Label (W : Type) where
  node : UINode
  text : wstring
  fontName : String
  align : Align
  supplier : Option (W → wstring)

/-- The default of the `fontName` parameter of the label constructors (declared in
controls.h, which is not among the sources). -/
def defaultFontName : String := "normal"

/-- The constructor `Label::Label(std::wstring text, std::string fontName)`. -/
def Label.new {W : Type} (text : wstring) (fontName : String) : Label W :=
  { node := { UINode.new ⟨0, 0⟩ ⟨(text.length : ℚ) * 8, 15⟩ with interactive := false },
    text := text, fontName := fontName, align := Align.left, supplier := none }

/-- The method `Label::setText`. -/
def Label.setText {W : Type} (l : Label W) (text : wstring) : Label W :=
  { l with text := text }

/-- The method `Label::getText`. -/
def Label.getText {W : Type} (l : Label W) : wstring := l.text

/-- The method `Label::textSupplier`. -/
def Label.textSupplier {W : Type} (l : Label W) (supplier : Option (W → wstring)) :
    Label W :=
  { l with supplier := supplier }

/-- The method `UINode::setSize` on a label. -/
def Label.setSize {W : Type} (l : Label W) (size : vec2) : Label W :=
  { l with node := { l.node with size := size } }

/-- The method `Label::draw`, in application state `w`. The font handle is dereferenced
without a null test, so there is no result when the font name does not resolve. -/
def Label.draw {W : Type} (l : Label W) (w : W) (assets : Assets) :
    Option (Label W × List DrawCmd) :=
  let l := match l.supplier with
    | some supplier => l.setText (supplier w)
    | none => l
  let cmds := [DrawCmd.color l.node.color]
  match assets.getFont l.fontName with
  | none => none
  | some font =>
    let size := l.node.size
    let newsize : vec2 := ⟨(font.calcWidth l.text : ℚ), ((font.lineHeight + font.yOffset : Int) : ℚ)⟩
    let coord := l.node.calcCoord
    let coord : vec2 := match l.align with
      | Align.left => coord
      | Align.center => ⟨coord.x + (size.x - newsize.x) * (1 / 2), coord.y⟩
      | Align.right => ⟨coord.x + (size.x - newsize.x), coord.y⟩
    let coord : vec2 := ⟨coord.x, coord.y + (size.y - newsize.y) * (1 / 2)⟩
    some (l, cmds ++ [DrawCmd.text l.text coord.x coord.y])

/-! ## Button -/

/-- A `Button` in text or content mode; `κ` is the type of the action callbacks
(`onaction`). -/
structure Button (κ W : Type) where
  node : UINode
  padding : vec4
  scrollable : Bool
  actions : List κ
  label : Option (Label W)

/-- The method `Button::listenAction`: `actions.push_back(action)`. -/
def Button.listenAction {κ W : Type} (b : Button κ W) (action : κ) : Button κ W :=
  { b with actions := b.actions ++ [action] }

/-- The constructor `Button::Button(std::wstring text, glm::vec4 padding, onaction action,
glm::vec2 size)`; a null `action` is `none`. -/
def Button.new {κ W : Type} (text : wstring) (padding : vec4) (action : Option κ)
    (size : vec2) : Button κ W :=
  let size : vec2 :=
    if size.y < 0 then
      ⟨max (padding.x + padding.z + (text.length : ℚ) * 8) size.x,
       max (padding.y + padding.w + 16) size.y⟩
    else size
  let b : Button κ W :=
    { node := UINode.new ⟨0, 0⟩ size, padding := padding, scrollable := true,
      actions := [], label := none }
  let b := match action with
    | some a => b.listenAction a
    | none => b
  let b := { b with scrollable := false }
  let label : Label W := Label.new text defaultFontName
  let label := { label with align := Align.center }
  let label := label.setSize (size.sub ⟨padding.z + padding.x, padding.w + padding.y⟩)
  let label := { label with node := { label.node with interactive := false } }
  let b := { b with label := some label }
  { b with node := { b.node with hoverColor := ⟨1 / 20, 1 / 10, 3 / 20, 3 / 4⟩ } }

/-- The method `Button::mouseRelease`: the button after the event and the action callbacks
invoked, in the order of invocation. -/
def Button.mouseRelease {κ W : Type} (b : Button κ W) (x y : Int) : Button κ W × List κ :=
  let b := { b with node := b.node.mouseRelease x y }
  if b.node.isInside ⟨(x : ℚ), (y : ℚ)⟩ then
    (b, b.actions.foldl (fun invoked callback => invoked ++ [callback]) [])
  else
    (b, [])

/-! ## TextBox -/

/-- A `TextBox`; `W` is the application state its supplier reads. -/
structure TextBox (W : Type) where
  node : UINode
  padding : vec4
  scrollable : Bool
  focusedColor : vec4
  invalidColor : vec4
  label : Label W
  input : wstring
  placeholder : wstring
  supplier : Option (W → wstring)
  consumer : Bool
  validator : Option (wstring → Bool)
  valid : Bool

/-- The constructor `TextBox::TextBox(std::wstring placeholder, glm::vec4 padding)`. The
members initialised in the class declaration (controls.h, which is not among the sources)
are the arguments `focusedColor`, `invalidColor` and `valid`. -/
def TextBox.new {W : Type} (placeholder : wstring) (padding : vec4)
    (focusedColor invalidColor : vec4) (valid : Bool) : TextBox W :=
  let size : vec2 := ⟨200, 32⟩
  let label : Label W := Label.new [] defaultFontName
  let label := label.setSize (size.sub ⟨padding.z + padding.x, padding.w + padding.y⟩)
  { node := { UINode.new ⟨0, 0⟩ size with hoverColor := ⟨1 / 20, 1 / 10, 1 / 5, 3 / 4⟩ },
    padding := padding, scrollable := true, focusedColor := focusedColor,
    invalidColor := invalidColor, label := label, input := [], placeholder := placeholder,
    supplier := none, consumer := false, validator := none, valid := valid }

/-- The method `TextBox::setTextSupplier`. -/
def TextBox.setTextSupplier {W : Type} (t : TextBox W) (supplier : Option (W → wstring)) :
    TextBox W :=
  { t with supplier := supplier }

/-- The method `TextBox::setTextConsumer`; the argument tells whether the callback given
is non-empty. -/
def TextBox.setTextConsumer {W : Type} (t : TextBox W) (consumer : Bool) : TextBox W :=
  { t with consumer := consumer }

/-- The method `TextBox::setTextValidator`. -/
def TextBox.setTextValidator {W : Type} (t : TextBox W)
    (validator : Option (wstring → Bool)) : TextBox W :=
  { t with validator := validator }

/-- The method `TextBox::getText`. -/
def TextBox.getText {W : Type} (t : TextBox W) : wstring :=
  if t.input.isEmpty then t.placeholder else t.input

/-- The method `TextBox::setText`. -/
def TextBox.setText {W : Type} (t : TextBox W) (value : wstring) : TextBox W :=
  { t with input := value }

/-- The method `TextBox::validate`: the box with its `valid` flag updated, and the flag. -/
def TextBox.validate {W : Type} (t : TextBox W) : TextBox W × Bool :=
  match t.validator with
  | some validator =>
    let valid := validator t.getText
    ({ t with valid := valid }, valid)
  | none => ({ t with valid := true }, true)

/-- The method `Label::setColor` (of `UINode`) on a label. -/
def Label.setColor {W : Type} (l : Label W) (color : vec4) : Label W :=
  { l with node := { l.node with color := color } }

/-- The method `TextBox::drawBackground`, in application state `w`. -/
def TextBox.drawBackground {W : Type} (t : TextBox W) (w : W) : TextBox W × List DrawCmd :=
  let coord := t.node.calcCoord
  let color :=
    if t.valid then
      if t.node.isFocused then t.focusedColor
      else if t.node.hover then t.node.hoverColor
      else t.node.color
    else t.invalidColor
  let cmds := [DrawCmd.texture false, DrawCmd.color color,
    DrawCmd.rect coord.x coord.y t.node.size.x t.node.size.y]
  let t :=
    if !t.node.isFocused then
      match t.supplier with
      | some supplier => { t with input := supplier w }
      | none => t
    else t
  let t :=
    if t.input.isEmpty then
      { t with label := (t.label.setColor (vec4.splat (1 / 2))).setText t.placeholder }
    else
      { t with label := (t.label.setColor (vec4.splat 1)).setText t.input }
  ({ t with scrollable := false }, cmds)

/-- The method `TextBox::typed`. -/
def TextBox.typed {W : Type} (t : TextBox W) (codepoint : Nat) : TextBox W :=
  ({ t with input := t.input ++ [wcharCast codepoint] }).validate.1

/-- The method `TextBox::keyPressed`. `ctrl` is the answer of
`Events::pressed(keycode::LEFT_CONTROL)` and `clipboard` the text of
`Window::getClipboardText()` converted to wide characters (null is `none`). -/
def TextBox.keyPressed {W : Type} (k : KeyCodes) (t : TextBox W) (key : Int) (ctrl : Bool)
    (clipboard : Option wstring) : TextBox W × List (Call wstring) :=
  let r : TextBox W × List (Call wstring) :=
    if key = k.BACKSPACE then
      if !t.input.isEmpty then
        (({ t with input := t.input.take (t.input.length - 1) }).validate.1, [])
      else (t, [])
    else if key = k.ENTER then
      let v := t.validate
      let calls := if v.2 && v.1.consumer then [Call.consumer v.1.label.getText] else []
      ({ v.1 with node := v.1.node.defocus }, calls ++ [Call.defocus])
    else (t, [])
  let t := r.1
  let t :=
    if key = k.V && ctrl then
      match clipboard with
      | some text => ({ t with input := t.input ++ text }).validate.1
      | none => t
    else t
  (t, r.2)

/-- The events a `TextBox` receives. -/
inductive TextBoxEvent (W : Type) where
  | draw (w : W)
  | typed (codepoint : Nat)
  | keyPressed (key : Int) (ctrl : Bool) (clipboard : Option wstring)
  | setText (value : wstring)

/-- One event delivered to a `TextBox`: the box afterwards and the calls made. -/
def TextBox.step {W : Type} (k : KeyCodes) (t : TextBox W) :
    TextBoxEvent W → TextBox W × List (Call wstring)
  | TextBoxEvent.draw w => ((t.drawBackground w).1, [])
  | TextBoxEvent.typed codepoint => (t.typed codepoint, [])
  | TextBoxEvent.keyPressed key ctrl clipboard => t.keyPressed k key ctrl clipboard
  | TextBoxEvent.setText value => (t.setText value, [])

/-- A sequence of events delivered in order: the box afterwards and all calls made. -/
def TextBox.run {W : Type} (k : KeyCodes) (t : TextBox W) :
    List (TextBoxEvent W) → TextBox W × List (Call wstring)
  | [] => (t, [])
  | e :: rest =>
    let r := t.step k e
    let r2 := TextBox.run k r.1 rest
    (r2.1, r.2 ++ r2.2)

/-- The value `validate` gives the `valid` flag in state `t`. -/
def TextBox.validity {W : Type} (t : TextBox W) : Bool :=
  match t.validator with
  | some validator => validator t.getText
  | none => true

/-! ## InputBindBox -/

/-- The kind of input a binding names. -/
inductive inputtype where
  | keyboard
  | mouse
deriving DecidableEq

/-- The external key-binding record: a mutable `(type, code)` pair. -/
structure Binding where
  type : inputtype
  code : Int
deriving DecidableEq

/-- An `InputBindBox`, with the binding record it refers to. -/
structure InputBindBox where
  node : UINode
  binding : Binding

/-- The method `InputBindBox::clicked`. -/
def InputBindBox.clicked (b : InputBindBox) (button : Int) :
    InputBindBox × List (Call Unit) :=
  let b := { b with binding := { b.binding with type := inputtype.mouse } }
  let b := { b with binding := { b.binding with code := button } }
  ({ b with node := b.node.defocus }, [Call.defocus])

/-- The method `InputBindBox::keyPressed`. -/
def InputBindBox.keyPressed (k : KeyCodes) (b : InputBindBox) (key : Int) :
    InputBindBox × List (Call Unit) :=
  let b :=
    if key ≠ k.ESCAPE then
      let b := { b with binding := { b.binding with type := inputtype.keyboard } }
      { b with binding := { b.binding with code := key } }
    else b
  ({ b with node := b.node.defocus }, [Call.defocus])

/-! ## TrackBar -/

/-- The least value of a 32-bit `int`. -/
def INT_MIN : Int := -2 ^ 31

/-- The greatest value of a 32-bit `int`. -/
def INT_MAX : Int := 2 ^ 31 - 1

/-- Truncation toward zero of a rational. -/
def truncate (q : ℚ) : Int := if 0 ≤ q then ⌊q⌋ else ⌈q⌉

/-- The conversion `(int)d` of a `double`: the fractional part is discarded, and the
conversion is undefined when the truncated value is not representable in `int`. -/
def intCast (d : ℚ) : Option Int :=
  if INT_MIN ≤ truncate d ∧ truncate d ≤ INT_MAX then some (truncate d) else none

/-- A `TrackBar`; `W` is the application state its supplier reads. -/
structure TrackBar (W : Type) where
  node : UINode
  trackColor : vec4
  supplier : Option (W → ℚ)
  consumer : Bool
  min : ℚ
  max : ℚ
  value : ℚ
  step : ℚ
  trackWidth : Int

/-- The constructor `TrackBar::TrackBar(min, max, value, step, trackWidth)`; `trackColor`
is initialised in the class declaration (controls.h, which is not among the sources). -/
def TrackBar.new {W : Type} (min max value step : ℚ) (trackWidth : Int)
    (trackColor : vec4) : TrackBar W :=
  { node := { UINode.new ⟨0, 0⟩ ⟨26, 26⟩ with
      color := ⟨0, 0, 0, 2 / 5⟩, hoverColor := ⟨1 / 100, 1 / 50, 3 / 100, 1 / 2⟩ },
    trackColor := trackColor, supplier := none, consumer := false,
    min := min, max := max, value := value, step := step, trackWidth := trackWidth }

/-- The value recovered from cursor `x` in `TrackBar::mouseMove` before it is clamped, with
the `double` operations taken as exact (`TrackBar.rawValueIEEE` rounds them). -/
def TrackBar.rawValue {W : Type} (t : TrackBar W) (x : Int) : ℚ :=
  let value : ℚ := (x : ℚ)
  let value := value - t.node.calcCoord.x
  let value := value / t.node.size.x * (t.max - t.min + (t.trackWidth : ℚ) * t.step)
  value + t.min

/-- The clamping of `TrackBar::mouseMove`: first against `max`, then against `min`. -/
def TrackBar.clampValue {W : Type} (t : TrackBar W) (value : ℚ) : ℚ :=
  let value := if value > t.max then t.max else value
  if value < t.min then t.min else value

/-- The method `TrackBar::mouseMove`: the bar afterwards and the calls to the consumer,
with the `double` operations taken as exact (`TrackBar.mouseMoveIEEE` rounds them). The
divisions are exact, so there is no result for a zero box width or a zero step (where
the `double` computation runs through infinities and NaN), nor when the conversion to
`int` is undefined. -/
def TrackBar.mouseMove {W : Type} (t : TrackBar W) (x _y : Int) :
    Option (TrackBar W × List (Call ℚ)) :=
  if t.node.size.x = 0 ∨ t.step = 0 then none
  else
    let value := t.clampValue (t.rawValue x)
    match intCast (value / t.step) with
    | none => none
    | some n =>
      let value := (n : ℚ) * t.step
      some ({ t with value := value }, if t.consumer then [Call.consumer value] else [])

/-- The denominator `max-min+trackWidth*step` in IEEE arithmetic: each of the three
`double` operations is rounded. -/
def TrackBar.rangeIEEE {W : Type} (t : TrackBar W) : Option ℚ := do
  let span ← ieee.binary64 (t.max - t.min)
  let track ← ieee.binary64 ((t.trackWidth : ℚ) * t.step)
  ieee.binary64 (span + track)

/-- The value recovered from cursor `x` in `TrackBar::mouseMove` before it is clamped, in
IEEE arithmetic: the statements `value = x; value -= coord.x; value = (value)/size.x *
(max-min+trackWidth*step); value += min;` with each `double` operation rounded. -/
def TrackBar.rawValueIEEE {W : Type} (t : TrackBar W) (x : Int) : Option ℚ := do
  let value ← ieee.binary64 (x : ℚ)
  let value ← ieee.binary64 (value - t.node.calcCoord.x)
  let range ← t.rangeIEEE
  if t.node.size.x = 0 then none
  else do
    let ratio ← ieee.binary64 (value / t.node.size.x)
    let value ← ieee.binary64 (ratio * range)
    ieee.binary64 (value + t.min)

/-- The method `TrackBar::mouseMove` in IEEE arithmetic: as `TrackBar.mouseMove`, with each
`double` operation rounded. The two comparisons of the clamping are exact. -/
def TrackBar.mouseMoveIEEE {W : Type} (t : TrackBar W) (x _y : Int) :
    Option (TrackBar W × List (Call ℚ)) := do
  let value ← t.rawValueIEEE x
  let value := t.clampValue value
  if t.step = 0 then none
  else do
    let quotient ← ieee.binary64 (value / t.step)
    let n ← intCast quotient
    let value ← ieee.binary64 ((n : ℚ) * t.step)
    some ({ t with value := value }, if t.consumer then [Call.consumer value] else [])

/-! ## CheckBox -/

/-- A `CheckBox`; `W` is the application state its supplier reads. -/
structure CheckBox (W : Type) where
  node : UINode
  checkColor : vec4
  supplier : Option (W → Bool)
  consumer : Bool
  checked : Bool

/-- The method `CheckBox::mouseRelease`. -/
def CheckBox.mouseRelease {W : Type} (c : CheckBox W) (_x _y : Int) :
    CheckBox W × List (Call Bool) :=
  let c := { c with checked := !c.checked }
  (c, if c.consumer then [Call.consumer c.checked] else [])

/-! ## Image -/

/-- An `Image`: the node, the texture name and the auto-resize flag. -/
structure Image where
  node : UINode
  texture : String
  autoresize : Bool

/-- The constructor `Image::Image(std::string texture, glm::vec2 size)`; `autoresize` is
initialised in the class declaration (controls.h, which is not among the sources). -/
def Image.new (texture : String) (size : vec2) (autoresize : Bool) : Image :=
  { node := { UINode.new ⟨0, 0⟩ size with interactive := false }, texture := texture,
    autoresize := autoresize }

/-- The method `Image::draw`. The handle is tested before its dimensions are read, and is
then handed to `batch->texture`, null or not; the `rect` call follows in every case (its
remaining arguments are constants and the colour set just before). -/
def Image.draw (i : Image) (assets : Assets) : Image × List DrawCmd :=
  let coord := i.node.calcCoord
  let color := i.node.color
  let texture := assets.getTexture i.texture
  let i :=
    match texture with
    | some tex =>
      if i.autoresize then
        { i with node := { i.node with size := ⟨(tex.width : ℚ), (tex.height : ℚ)⟩ } }
      else i
    | none => i
  (i, [DrawCmd.texture texture.isSome, DrawCmd.color color,
    DrawCmd.rect coord.x coord.y i.node.size.x i.node.size.y])

/-! ## Button layout -/

/-- The method `UINode::setSize` on a button. -/
def Button.setSize {κ W : Type} (b : Button κ W) (size : vec2) : Button κ W :=
  { b with node := { b.node with size := size } }

/-- The denominator `max-min+trackWidth*step` of `TrackBar::draw` as a real number. -/
def TrackBar.range {W : Type} (t : TrackBar W) : ℚ :=
  t.max - t.min + (t.trackWidth : ℚ) * t.step

/-- The normalized position `t = (value - min) / (max-min+trackWidth*step)` as a real
number. -/
def TrackBar.position {W : Type} (t : TrackBar W) : ℚ := (t.value - t.min) / t.range

/-- The first statement of `TrackBar::draw`: the value is taken from the supplier when one
is set. -/
def TrackBar.pull {W : Type} (t : TrackBar W) (w : W) : TrackBar W :=
  match t.supplier with
  | some supplier => { t with value := supplier w }
  | none => t

/-- The product `width * t` of `TrackBar::draw` in IEEE arithmetic: the quotient
`(value - min) / (max-min+trackWidth*step)` is computed in `double`, narrowed to the
`float t`, and multiplied by the `float` width. -/
def TrackBar.thumbOffset {W : Type} (t : TrackBar W) : Option ℚ := do
  let delta ← ieee.binary64 (t.value - t.min)
  let range ← t.rangeIEEE
  if range = 0 then none
  else do
    let quotient ← ieee.binary64 (delta / range)
    let position ← ieee.binary32 quotient
    ieee.binary32 (t.node.size.x * position)

/-- The `int actualWidth` of `TrackBar::draw` in IEEE arithmetic: the product
`size.x * (trackWidth / (max-min+trackWidth*step) * step)` is computed in `double` and
converted to `int`. -/
def TrackBar.actualWidth {W : Type} (t : TrackBar W) : Option Int := do
  let range ← t.rangeIEEE
  if range = 0 then none
  else do
    let ratio ← ieee.binary64 ((t.trackWidth : ℚ) / range)
    let ratio ← ieee.binary64 (ratio * t.step)
    let width ← ieee.binary64 (t.node.size.x * ratio)
    intCast width

/-- The method `TrackBar::draw`, in application state `w` and in IEEE arithmetic. The
arguments of `rect` are `float`s: the sum `coord.x + width * t` is a `float` addition and
`actualWidth` is converted from `int`. There is no result when an operation leaves the
finite numbers (a zero denominator included) or the conversion to `int` is undefined. -/
def TrackBar.draw {W : Type} (t : TrackBar W) (w : W) :
    Option (TrackBar W × List DrawCmd) := do
  let t := t.pull w
  let coord := t.node.calcCoord
  let cmds := [DrawCmd.texture false,
    DrawCmd.color (if t.node.hover then t.node.hoverColor else t.node.color),
    DrawCmd.rect coord.x coord.y t.node.size.x t.node.size.y]
  let offset ← t.thumbOffset
  let actualWidth ← t.actualWidth
  let x ← ieee.binary32 (coord.x + offset)
  let width ← ieee.binary32 (actualWidth : ℚ)
  some (t, cmds ++ [DrawCmd.color t.trackColor,
    DrawCmd.rect x coord.y width t.node.size.y])

/-! ## Concrete widgets used as instances -/

/-- A validator that rejects exactly the empty string. -/
def rejectEmpty (s : wstring) : Bool := !s.isEmpty

/-- A text box with placeholder `"n"`, the validator `rejectEmpty` and a consumer. -/
def nameBox : TextBox Unit :=
  ((TextBox.new [110] ⟨2, 2, 2, 2⟩ ⟨0, 0, 0, 1⟩ ⟨1 / 10, 1 / 20, 3 / 100, 1⟩ true).setTextValidator
    (some rejectEmpty)).setTextConsumer true

/-- A validator that accepts the strings of at least two characters. -/
def atLeastTwo (s : wstring) : Bool := decide (2 ≤ s.length)

/-- A text box with placeholder `"name"`, the validator `atLeastTwo` and a consumer. -/
def pairBox : TextBox Unit :=
  ((TextBox.new [110, 97, 109, 101] ⟨2, 2, 2, 2⟩ ⟨0, 0, 0, 1⟩ ⟨1 / 10, 1 / 20, 3 / 100, 1⟩
    true).setTextValidator (some atLeastTwo)).setTextConsumer true

/-- Assets in which every font name resolves to a fixed-pitch font. -/
def someAssets : Assets :=
  { getFont := fun _ => some ⟨fun s => 8 * (s.length : Int), 16, 0⟩,
    getTexture := fun _ => none }

/-- A track bar for `[0, 100]` with step 1 and track width 10 in a box 550 wide at the
origin, with a consumer. -/
def percentBar : TrackBar Unit :=
  let t : TrackBar Unit := TrackBar.new 0 100 0 1 10 ⟨1, 1, 1, 1⟩
  { t with consumer := true, node := { t.node with size := ⟨550, 26⟩ } }

/-- A track bar for `[-10, 10]` with step 1 and track width 10 in a box 60 wide at the
origin, with a consumer. -/
def signedBar : TrackBar Unit :=
  let t : TrackBar Unit := TrackBar.new (-10) 10 0 1 10 ⟨1, 1, 1, 1⟩
  { t with consumer := true, node := { t.node with size := ⟨60, 26⟩ } }

/-- A binding box on the binding `(keyboard, 87)`. -/
def bindBox : InputBindBox :=
  { node := { UINode.new ⟨0, 0⟩ ⟨100, 32⟩ with focused := true },
    binding := ⟨inputtype.keyboard, 87⟩ }

/-- A track bar for `[5, 100]` with step 10 and track width 10 in a box 100 wide at the
origin, with a consumer. -/
def coarseBar : TrackBar Unit :=
  let t : TrackBar Unit := TrackBar.new 5 100 5 10 10 ⟨1, 1, 1, 1⟩
  { t with consumer := true, node := { t.node with size := ⟨100, 26⟩ } }

/-- A label whose font name does not resolve in `noAssets`. -/
def plainLabel : Label Unit := Label.new [97, 98] defaultFontName

/-- An image of declared size 64 by 64 without auto-resize. -/
def blankImage : Image := Image.new "gui/missing" ⟨64, 64⟩ false

/-- Assets in which no name resolves. -/
def noAssets : Assets :=
  { getFont := fun _ => none, getTexture := fun _ => none }

end gui

/-! # Content packs (`content/ContentPack.cpp`) -/

namespace content

/-- A `std::string`: the sequence of its characters. -/
abbrev string := List Char

/-- The function `isdigit` of `<cctype>` in the C locale, on ASCII characters. -/
def isdigit (c : Char) : Bool := decide (48 ≤ c.toNat ∧ c.toNat ≤ 57)

/-- The function `isalnum` of `<cctype>` in the C locale, on ASCII characters. -/
def isalnum (c : Char) : Bool :=
  isdigit c || decide (65 ≤ c.toNat ∧ c.toNat ≤ 90) || decide (97 ≤ c.toNat ∧ c.toNat ≤ 122)

/-- The list `ContentPack::RESERVED_NAMES`. -/
def RESERVED_NAMES : List string :=
  ["res".toList, "abs".toList, "local".toList, "core".toList, "user".toList,
   "world".toList, "none".toList, "null".toList]

/-- The exception `contentpack_error`: pack id, folder and message. -/
structure contentpack_error where
  packId : string
  folder : String
  message : String
deriving DecidableEq

/-- The loop `for (char c : id)` of `checkContentPackId` over the characters still to be
visited. -/
def checkChars (id : string) (folder : String) :
    List Char → Except contentpack_error Unit
  | [] => Except.ok ()
  | c :: rest =>
    if !isalnum c && c != '_' then
      Except.error ⟨id, folder, "illegal character in content-pack id"⟩
    else checkChars id folder rest

/-- The function `checkContentPackId`; a thrown `contentpack_error` is `Except.error`. The
test `isdigit(id[0])` is reached only for an id of length at least 2. -/
def checkContentPackId (id : string) (folder : String) : Except contentpack_error Unit :=
  if id.length < 2 || id.length > 24 then
    Except.error ⟨id, folder, "content-pack id length is out of range [2, 24]"⟩
  else if (match id with
      | c :: _ => isdigit c
      | [] => false) then
    Except.error ⟨id, folder, "content-pack id must not start with a digit"⟩
  else
    match checkChars id folder id with
    | Except.error e => Except.error e
    | Except.ok _ =>
      if RESERVED_NAMES.contains id then
        Except.error ⟨id, folder, "this content-pack id is reserved"⟩
      else Except.ok ()

/-- An id whose length is below 2 or above 24. -/
abbrev lengthOutOfRange (id : string) : Prop := id.length < 2 ∨ 24 < id.length

/-- An id that starts with a decimal digit. -/
abbrev startsWithDigit (id : string) : Prop := ∃ c ∈ id.head?, c.isDigit = true

/-- An id with a character that is neither alphanumeric nor the underscore. -/
abbrev hasIllegalCharacter (id : string) : Prop := ∃ c ∈ id, c.isAlphanum = false ∧ c ≠ '_'

/-- An id that is one of the reserved names. -/
abbrev isReserved (id : string) : Prop :=
  id = "res".toList ∨ id = "abs".toList ∨ id = "local".toList ∨ id = "core".toList
    ∨ id = "user".toList ∨ id = "world".toList ∨ id = "none".toList ∨ id = "null".toList

end content

/-! # Properties -/

/-! ## Rounding -/

namespace ieee

/-- Rounding an integer leaves it. -/
theorem roundHalfEven_intCast (n : Int) : roundHalfEven (n : ℚ) = n := by
  unfold roundHalfEven
  simp

/-- The rounded integer is the floor or the floor plus one. -/
theorem roundHalfEven_bounds (x : ℚ) : ⌊x⌋ ≤ roundHalfEven x ∧ roundHalfEven x ≤ ⌊x⌋ + 1 := by
  unfold roundHalfEven
  split_ifs <;> constructor <;> omega

/-- Rounding to the nearest integer is monotone. -/
theorem roundHalfEven_mono {x y : ℚ} (h : x ≤ y) : roundHalfEven x ≤ roundHalfEven y := by
  have hf : ⌊x⌋ ≤ ⌊y⌋ := Int.floor_le_floor h
  rcases lt_or_eq_of_le hf with hlt | heq
  · have h1 := (roundHalfEven_bounds x).2
    have h2 := (roundHalfEven_bounds y).1
    omega
  · unfold roundHalfEven
    rw [heq]
    split_ifs <;> first | omega | (exfalso; linarith)

/-- A value at most the integer `n` rounds to at most `n`. -/
theorem roundHalfEven_le {x : ℚ} {n : Int} (h : x ≤ (n : ℚ)) : roundHalfEven x ≤ n := by
  have h1 := roundHalfEven_mono h
  rwa [roundHalfEven_intCast] at h1

/-- A value at least the integer `n` rounds to at least `n`. -/
theorem le_roundHalfEven {x : ℚ} {n : Int} (h : (n : ℚ) ≤ x) : n ≤ roundHalfEven x := by
  have h1 := roundHalfEven_mono h
  rwa [roundHalfEven_intCast] at h1

/-- A value nearer than one half to the integer `n` rounds to `n`. -/
theorem roundHalfEven_eq {x : ℚ} {n : Int} (h : |x - (n : ℚ)| < 1 / 2) :
    roundHalfEven x = n := by
  rw [abs_lt] at h
  obtain ⟨h1, h2⟩ := h
  unfold roundHalfEven
  by_cases hx : (n : ℚ) ≤ x
  · have hfl : ⌊x⌋ = n := Int.floor_eq_iff.mpr ⟨hx, by linarith⟩
    rw [hfl, if_pos (by linarith)]
  · have hfl : ⌊x⌋ = n - 1 := Int.floor_eq_iff.mpr ⟨by push_cast; linarith, by push_cast; linarith⟩
    rw [hfl]
    have h3 : ¬ (x - ((n - 1 : Int) : ℚ) < 1 / 2) := by push_cast; linarith
    have h4 : 1 / 2 < x - ((n - 1 : Int) : ℚ) := by push_cast; linarith
    rw [if_neg h3, if_pos h4]
    omega

/-- The spacing is positive. -/
theorem ulp_pos (p : Nat) (emin : Int) (q : ℚ) : 0 < ulp p emin q := by
  unfold ulp
  positivity

/-- Rounding a positive value gives a non-negative one. -/
theorem roundPos_nonneg (p : Nat) (emin : Int) {q : ℚ} (hq : 0 ≤ q) :
    0 ≤ roundPos p emin q := by
  unfold roundPos
  have hu := ulp_pos p emin q
  have h1 : (0 : ℚ) ≤ q / ulp p emin q := div_nonneg hq (le_of_lt hu)
  have h2 : (0 : Int) ≤ roundHalfEven (q / ulp p emin q) :=
    le_roundHalfEven (by simpa using h1)
  have h3 : (0 : ℚ) ≤ (roundHalfEven (q / ulp p emin q) : ℚ) := by exact_mod_cast h2
  exact mul_nonneg h3 (le_of_lt hu)

/-- Rounding keeps zero. -/
theorem roundNearest_zero (p : Nat) (emin : Int) : roundNearest p emin 0 = 0 := by
  simp [roundNearest]

/-- Rounding is odd. -/
theorem roundNearest_neg (p : Nat) (emin : Int) (q : ℚ) :
    roundNearest p emin (-q) = -roundNearest p emin q := by
  unfold roundNearest
  rcases lt_trichotomy q 0 with h | h | h
  · have h1 : 0 < -q := by linarith
    have h2 : ¬ (0 < q) := by linarith
    simp [h1, h2, h]
  · subst h
    simp
  · have h1 : ¬ (0 < -q) := by linarith
    have h2 : -q < 0 := by linarith
    simp [h1, h2, h]

/-- Rounding keeps the sign of a non-negative value. -/
theorem roundNearest_nonneg (p : Nat) (emin : Int) {q : ℚ} (hq : 0 ≤ q) :
    0 ≤ roundNearest p emin q := by
  unfold roundNearest
  split_ifs with h1 h2
  · exact roundPos_nonneg p emin hq
  · linarith
  · exact le_refl _

/-- Rounding keeps the sign of a non-positive value. -/
theorem roundNearest_nonpos (p : Nat) (emin : Int) {q : ℚ} (hq : q ≤ 0) :
    roundNearest p emin q ≤ 0 := by
  have h := roundNearest_nonneg p emin (q := -q) (by linarith)
  rw [roundNearest_neg] at h
  linarith


/-- A positive value lies in the binade its logarithm names. -/
theorem log_bounds {q : ℚ} (hq : 0 < q) :
    (2 : ℚ) ^ Int.log 2 q ≤ q ∧ q < (2 : ℚ) ^ (Int.log 2 q + 1) := by
  have h1 := Int.zpow_log_le_self (b := 2) (r := q) (by norm_num) hq
  have h2 := Int.lt_zpow_succ_log_self (b := 2) (by norm_num) q
  simp only [Nat.cast_ofNat] at h1 h2
  exact ⟨h1, h2⟩

/-- The logarithm of a value in the binade of `e` is `e`. -/
theorem log_eq_of_bounds {q : ℚ} {e : Int} (hq : 0 < q) (h1 : (2 : ℚ) ^ e ≤ q)
    (h2 : q < (2 : ℚ) ^ (e + 1)) : Int.log 2 q = e := by
  have h3 : e ≤ Int.log 2 q := by
    rw [← Int.zpow_le_iff_le_log (b := 2) (by norm_num) hq]
    simpa using h1
  have h4 : Int.log 2 q < e + 1 := by
    rw [← Int.lt_zpow_iff_log_lt (b := 2) (by norm_num) hq]
    simpa using h2
  omega

/-- The exponent is at least `emin` and at least the logarithm. -/
theorem exponent_bounds (emin : Int) (q : ℚ) :
    emin ≤ exponent emin q ∧ Int.log 2 q ≤ exponent emin q := by
  unfold exponent
  exact ⟨le_max_right _ _, le_max_left _ _⟩

/-- A positive value is below the upper end of its binade. -/
theorem lt_pow_exponent (emin : Int) {q : ℚ} (hq : 0 < q) :
    q < (2 : ℚ) ^ (exponent emin q + 1) := by
  have h1 := (log_bounds hq).2
  have h2 : (2 : ℚ) ^ (Int.log 2 q + 1) ≤ (2 : ℚ) ^ (exponent emin q + 1) :=
    zpow_le_zpow_right₀ (by norm_num) (by have := (exponent_bounds emin q).2; omega)
  linarith

/-- The upper end of the binade is `2 ^ p` spacings. -/
theorem pow_mul_ulp (p : Nat) (emin : Int) (q : ℚ) :
    (((2 : Int) ^ p : Int) : ℚ) * ulp p emin q = (2 : ℚ) ^ (exponent emin q + 1) := by
  unfold ulp
  push_cast
  rw [← zpow_natCast, ← zpow_add₀ (by norm_num : (2 : ℚ) ≠ 0)]
  congr 1
  ring

/-- A rounded positive value does not pass the upper end of its binade. -/
theorem roundPos_le (p : Nat) (emin : Int) {q : ℚ} (hq : 0 < q) :
    roundPos p emin q ≤ (2 : ℚ) ^ (exponent emin q + 1) := by
  have hu := ulp_pos p emin q
  have h1 : q / ulp p emin q ≤ (((2 : Int) ^ p : Int) : ℚ) := by
    rw [div_le_iff₀ hu, pow_mul_ulp]
    exact le_of_lt (lt_pow_exponent emin hq)
  have h2 : (roundHalfEven (q / ulp p emin q) : ℚ) ≤ (((2 : Int) ^ p : Int) : ℚ) := by
    exact_mod_cast roundHalfEven_le h1
  unfold roundPos
  rw [← pow_mul_ulp]
  exact mul_le_mul_of_nonneg_right h2 (le_of_lt hu)

/-- A positive multiple of a power of two by an integer, divided by a smaller power of two,
is an integer. -/
theorem int_mul_zpow_div (m : Int) {a b : Int} (h : b ≤ a) :
    (m : ℚ) * (2 : ℚ) ^ a / (2 : ℚ) ^ b = ((m * (2 : Int) ^ (a - b).toNat : Int) : ℚ) := by
  have hk : ((a - b).toNat : Int) = a - b := Int.toNat_of_nonneg (by omega)
  push_cast
  rw [← zpow_natCast (2 : ℚ) (a - b).toNat, hk, mul_div_assoc,
    ← zpow_sub₀ (by norm_num : (2 : ℚ) ≠ 0)]

/-- A positive value that is a whole number of its own spacings is kept by rounding. -/
theorem roundPos_eq_self (p : Nat) (emin : Int) (r : ℚ) (k : Int)
    (h : r / ulp p emin r = (k : ℚ)) : roundPos p emin r = r := by
  have hu := ulp_pos p emin r
  unfold roundPos
  rw [h, roundHalfEven_intCast, ← h]
  exact div_mul_cancel₀ _ (ne_of_gt hu)

/-- The value of rounding in a normal binade: `q` in the binade of `e ≥ emin`, and `n` the
integer nearer than one half to `q` measured in spacings. -/
theorem roundNearest_eq (p : Nat) (emin : Int) {q : ℚ} (e n : Int) (hq : 0 < q)
    (h1 : (2 : ℚ) ^ e ≤ q) (h2 : q < (2 : ℚ) ^ (e + 1)) (he : emin ≤ e)
    (hn : |q / (2 : ℚ) ^ (e - ((p : Int) - 1)) - (n : ℚ)| < 1 / 2) :
    roundNearest p emin q = (n : ℚ) * (2 : ℚ) ^ (e - ((p : Int) - 1)) := by
  have hlog := log_eq_of_bounds hq h1 h2
  have hE : exponent emin q = e := by
    unfold exponent
    rw [hlog]
    exact max_eq_left he
  unfold roundNearest
  rw [if_pos hq]
  unfold roundPos ulp
  rw [hE, roundHalfEven_eq hn]

/-- An integer below `2 ^ p` in absolute value is kept by rounding. -/
theorem roundNearest_intCast (p : Nat) (emin : Int) (n : Int) (hemin : emin ≤ 0)
    (hn : |n| < 2 ^ p) : roundNearest p emin (n : ℚ) = (n : ℚ) := by
  have key : ∀ m : Int, 0 < m → m < 2 ^ p →
      roundNearest p emin (m : ℚ) = (m : ℚ) := by
    intro m hm0 hmp
    have hq : (0 : ℚ) < (m : ℚ) := by exact_mod_cast hm0
    have h1q : (1 : ℚ) ≤ (m : ℚ) := by exact_mod_cast hm0
    have hlog0 : 0 ≤ Int.log 2 (m : ℚ) := by
      rw [← Int.zpow_le_iff_le_log (b := 2) (by norm_num) hq]
      simpa using h1q
    have hlogp : Int.log 2 (m : ℚ) < (p : Int) := by
      rw [← Int.lt_zpow_iff_log_lt (b := 2) (by norm_num) hq]
      have : ((m : Int) : ℚ) < (((2 : Int) ^ p : Int) : ℚ) := by exact_mod_cast hmp
      simpa using this
    have hE : exponent emin (m : ℚ) = Int.log 2 (m : ℚ) := by
      unfold exponent
      exact max_eq_left (by omega)
    have hdiv : (m : ℚ) / ulp p emin (m : ℚ)
        = ((m * (2 : Int) ^ (0 - (exponent emin (m : ℚ) - ((p : Int) - 1))).toNat : Int) : ℚ) := by
      have h := int_mul_zpow_div m (a := 0)
        (b := exponent emin (m : ℚ) - ((p : Int) - 1)) (by omega)
      rw [← h]
      simp [ulp]
    unfold roundNearest
    rw [if_pos hq]
    exact roundPos_eq_self p emin _ _ hdiv
  rcases lt_trichotomy n 0 with h | h | h
  · have h1 := key (-n) (by omega) (by rw [abs_of_neg h] at hn; exact hn)
    have h2 := roundNearest_neg p emin ((-n : Int) : ℚ)
    rw [h1] at h2
    have h3 : -(((-n : Int) : ℚ)) = (n : ℚ) := by push_cast; ring
    rw [h3] at h2
    rw [h2, ← h3]
  · subst h
    simp [roundNearest_zero]
  · exact key n h (by rw [abs_of_pos h] at hn; exact hn)


/-- A `double` result is the rounded exact value, and is finite. -/
theorem binary64_eq_some {q r : ℚ} (h : binary64 q = some r) :
    r = roundNearest 53 (-1022) q ∧ |r| < 2 ^ 1024 := by
  unfold binary64 at h
  split_ifs at h with hfin
  · have hr : roundNearest 53 (-1022) q = r := Option.some.inj h
    rw [← hr]
    exact ⟨rfl, hfin⟩

/-- A `double` result has the sign of the exact value. -/
theorem binary64_sign {q r : ℚ} (h : binary64 q = some r) :
    (0 ≤ q → 0 ≤ r) ∧ (q ≤ 0 → r ≤ 0) := by
  rw [(binary64_eq_some h).1]
  exact ⟨fun hq => roundNearest_nonneg 53 (-1022) hq,
    fun hq => roundNearest_nonpos 53 (-1022) hq⟩

/-- The finite bound that follows from the binade of the exact value. -/
theorem roundNearest_abs_le (p : Nat) (emin : Int) {q : ℚ} (e : Int) (hq : 0 < q)
    (h2 : q < (2 : ℚ) ^ (e + 1)) (he : emin ≤ e) :
    |roundNearest p emin q| ≤ (2 : ℚ) ^ (e + 1) := by
  have h0 := roundNearest_nonneg p emin (le_of_lt hq)
  rw [abs_of_nonneg h0]
  have hlog : Int.log 2 q < e + 1 := by
    rw [← Int.lt_zpow_iff_log_lt (b := 2) (by norm_num) hq]
    simpa using h2
  have hE : exponent emin q ≤ e := by
    unfold exponent
    exact max_le (by omega) he
  have h1 := roundPos_le p emin hq
  have h3 : (2 : ℚ) ^ (exponent emin q + 1) ≤ (2 : ℚ) ^ (e + 1) :=
    zpow_le_zpow_right₀ (by norm_num) (by omega)
  unfold roundNearest
  rw [if_pos hq]
  linarith

/-- The value of a `double` operation: the exact value `q > 0` lies in the binade of `e`
and `n` is the integer nearer than one half to `q` measured in spacings `2 ^ (e - 52)`. -/
theorem binary64_eq (q r : ℚ) (e n : Int) (hq : 0 < q) (h1 : (2 : ℚ) ^ e ≤ q)
    (h2 : q < (2 : ℚ) ^ (e + 1)) (he1 : -1022 ≤ e) (he2 : e < 1023)
    (hn : |q / (2 : ℚ) ^ (e - 52) - (n : ℚ)| < 1 / 2) (hr : r = (n : ℚ) * (2 : ℚ) ^ (e - 52)) :
    binary64 q = some r := by
  have hval : roundNearest 53 (-1022) q = r := by
    rw [hr]
    exact roundNearest_eq 53 (-1022) e n hq h1 h2 he1 hn
  have hfin : |roundNearest 53 (-1022) q| < 2 ^ 1024 := by
    have h3 := roundNearest_abs_le 53 (-1022) e hq h2 he1
    have h4 : (2 : ℚ) ^ (e + 1) ≤ (2 : ℚ) ^ (1023 : Int) :=
      zpow_le_zpow_right₀ (by norm_num) (by omega)
    have h5 : (2 : ℚ) ^ (1023 : Int) < 2 ^ 1024 := by
      rw [← zpow_natCast (2 : ℚ) 1024]
      exact zpow_lt_zpow_right₀ (by norm_num) (by norm_num)
    linarith
  unfold binary64
  rw [if_pos hfin, hval]

/-- An integer below `2 ^ 53` in absolute value is a `double`. -/
theorem binary64_intCast (n : Int) (h : |n| < 2 ^ 53) : binary64 (n : ℚ) = some (n : ℚ) := by
  have hval := roundNearest_intCast 53 (-1022) n (by norm_num) h
  have hfin : |roundNearest 53 (-1022) (n : ℚ)| < 2 ^ 1024 := by
    rw [hval]
    have h1 : |(n : ℚ)| < 2 ^ 53 := by exact_mod_cast h
    have h2 : (2 : ℚ) ^ 53 < 2 ^ 1024 := by norm_num
    linarith
  unfold binary64
  rw [if_pos hfin, hval]

/-- A `double` operation whose exact value is zero gives zero. -/
theorem binary64_zero : binary64 0 = some 0 := by
  unfold binary64
  rw [roundNearest_zero]
  simp

/-- A `float` operation whose exact value is zero gives zero. -/
theorem binary32_zero : binary32 0 = some 0 := by
  unfold binary32
  rw [roundNearest_zero]
  simp

/-- A `double` operation on a negative exact value mirrors the one on its opposite. -/
theorem binary64_neg {q r : ℚ} (h : binary64 (-q) = some r) : binary64 q = some (-r) := by
  obtain ⟨hr, hfin⟩ := binary64_eq_some h
  rw [roundNearest_neg] at hr
  have hval : roundNearest 53 (-1022) q = -r := by rw [hr]; ring
  unfold binary64
  rw [hval, abs_neg, if_pos hfin]

end ieee

/-! ## Button -/

namespace gui

/-- The loop over `actions` invokes the callbacks in list order, after those already
invoked. -/
theorem foldl_invoke {κ : Type} (actions invoked : List κ) :
    actions.foldl (fun invoked callback => invoked ++ [callback]) invoked
      = invoked ++ actions := by
  induction actions generalizing invoked with
  | nil => simp
  | cons a rest ih => simp [ih]

/-- Registering further actions appends them to the registered ones and leaves the node
alone. -/
theorem foldl_listenAction {κ W : Type} (b : Button κ W) (more : List κ) :
    (more.foldl Button.listenAction b).actions = b.actions ++ more
      ∧ (more.foldl Button.listenAction b).node = b.node := by
  induction more generalizing b with
  | nil => simp
  | cons a rest ih =>
    have h := ih (b.listenAction a)
    simp only [List.foldl_cons]
    refine ⟨?_, ?_⟩
    · rw [h.1]; simp [Button.listenAction]
    · rw [h.2]; rfl

/-- C1: a button with registered actions `b.actions`, given the further actions `more`
through `listenAction`, invokes on `mouseRelease` at `(x, y)` the actions
`b.actions ++ more`, each once and in registration order, when the point is inside its box,
and none otherwise; the text constructor registers its action (when given) first. -/
theorem Button.mouseRelease_fires_registered {κ W : Type} (b : Button κ W) (more : List κ)
    (x y : Int) :
    ((more.foldl Button.listenAction b).mouseRelease x y).2
        = (if b.node.isInside ⟨(x : ℚ), (y : ℚ)⟩ then b.actions ++ more else [])
      ∧ ∀ (text : wstring) (padding : vec4) (action : Option κ) (size : vec2),
          (Button.new text padding action size : Button κ W).actions = action.toList := by
  have h := foldl_listenAction b more
  refine ⟨?_, ?_⟩
  · simp only [Button.mouseRelease, UINode.mouseRelease, foldl_invoke, List.nil_append]
    rw [h.1, h.2]
    split <;> rfl
  · intro text padding action size
    cases action <;> simp [Button.new, Button.listenAction]

/-! ## TextBox -/

/-- What Enter does to a box: the consumer is invoked, with the label's text, exactly when
the validator (if any) accepts `getText()` and a consumer is set; `defocus` follows. -/
theorem keyPressed_enter_calls {W : Type} (k : KeyCodes) (t : TextBox W) (ctrl : Bool)
    (clipboard : Option wstring) :
    (t.keyPressed k k.ENTER ctrl clipboard).2
      = (if t.validity && t.consumer then [Call.consumer t.label.getText] else [])
          ++ [Call.defocus] := by
  have h1 : k.ENTER ≠ k.BACKSPACE := k.enter_ne_backspace
  unfold TextBox.keyPressed TextBox.validity TextBox.validate
  simp only [h1, if_false, if_true]
  cases hv : t.validator <;> simp [TextBox.getText]

/-- After `drawBackground` the label shows what `getText()` returns. -/
theorem drawBackground_label {W : Type} (t : TextBox W) (w : W) :
    (t.drawBackground w).1.label.getText = (t.drawBackground w).1.getText
      ∧ (t.drawBackground w).1.validator = t.validator
      ∧ (t.drawBackground w).1.consumer = t.consumer := by
  unfold TextBox.drawBackground
  simp only [TextBox.getText, Label.getText, Label.setText, Label.setColor]
  cases hf : (!t.node.isFocused) <;> cases hs : t.supplier <;> simp <;> split <;> simp_all

/-- C2: on `pairBox`, whose validator accepts only strings of two or more characters,
typing `a`, drawing, then typing `b` and pressing Enter before the next draw validates the
buffer `"ab"` and passes the label's text `"a"`, which the validator rejects, to the
consumer. -/
theorem TextBox.enter_passes_stale_label :
    (TextBox.run glfwKeys pairBox
        [TextBoxEvent.typed 97, TextBoxEvent.draw (), TextBoxEvent.typed 98,
         TextBoxEvent.keyPressed glfwKeys.ENTER false none]).2
      = [Call.consumer [97], Call.defocus]
      ∧ (TextBox.run glfwKeys pairBox
          [TextBoxEvent.typed 97, TextBoxEvent.draw (), TextBoxEvent.typed 98]).1.getText
          = [97, 98]
      ∧ pairBox.validator = some atLeastTwo ∧ pairBox.consumer = true
      ∧ atLeastTwo [97, 98] = true ∧ atLeastTwo [97] = false :=
  ⟨by decide, by decide, rfl, rfl, rfl, rfl⟩

/-- When Enter invokes the consumer, the validator accepts `getText()` and the consumer
receives the label's text; that text satisfies the validator whenever the label shows
`getText()`, which is the case when the Enter directly follows a draw. -/
theorem TextBox.enter_passes_label_text {W : Type} (k : KeyCodes) (t : TextBox W)
    (validator : wstring → Bool) (ctrl : Bool) (clipboard : Option wstring) (text : wstring)
    (hv : t.validator = some validator)
    (h : Call.consumer text ∈ (t.keyPressed k k.ENTER ctrl clipboard).2) :
    text = t.label.getText ∧ validator t.getText = true
      ∧ (t.label.getText = t.getText → validator text = true)
      ∧ ((∃ (t0 : TextBox W) (w : W), t = (t0.drawBackground w).1) →
          validator text = true) := by
  rw [keyPressed_enter_calls] at h
  have hval : t.validity = validator t.getText := by simp [TextBox.validity, hv]
  have h2 : (t.validity && t.consumer) = true ∧ text = t.label.getText := by
    by_cases hc : (t.validity && t.consumer) = true
    · simp [hc] at h
      exact ⟨hc, h⟩
    · simp [hc] at h
  obtain ⟨hc, htext⟩ := h2
  have hok : validator t.getText = true := by
    rw [← hval]
    simp at hc
    exact hc.1
  refine ⟨htext, hok, ?_, ?_⟩
  · intro hsync
    rw [htext, hsync]
    exact hok
  · rintro ⟨t0, w, rfl⟩
    rw [htext, (drawBackground_label t0 w).1]
    exact hok

/-- Typing `a` into `nameBox`, drawing and pressing Enter passes `"a"`, which the validator
accepts. -/
theorem TextBox.enter_passes_label_text_witness :
    Call.consumer [97] ∈
        ((((nameBox.typed 97).drawBackground ()).1).keyPressed glfwKeys glfwKeys.ENTER
          false none).2
      ∧ rejectEmpty [97] = true :=
  ⟨by decide,
   (TextBox.enter_passes_label_text glfwKeys (((nameBox.typed 97).drawBackground ()).1)
      rejectEmpty false none [97] rfl (by decide)).2.2.2
      ⟨nameBox.typed 97, (), rfl⟩⟩

/-- C3 (counterexample): the buffer is empty and the validator rejects the empty string, yet
Enter after a draw invokes the consumer, with the placeholder `"n"`, because the validator
is asked about the placeholder. -/
theorem TextBox.enter_empty_buffer_invokes_consumer :
    (nameBox.drawBackground ()).1.input = []
      ∧ (nameBox.drawBackground ()).1.validator = some rejectEmpty
      ∧ rejectEmpty [] = false
      ∧ ((nameBox.drawBackground ()).1.keyPressed glfwKeys glfwKeys.ENTER false none).2
          = [Call.consumer [110], Call.defocus] :=
  ⟨rfl, rfl, rfl, by decide⟩

/-- C3 (amended): with an empty buffer and a validator that rejects the placeholder, which
is what `getText()` returns for an empty buffer, Enter does not invoke the consumer; so it
is when the placeholder is empty and the validator rejects the empty string. -/
theorem TextBox.enter_rejected_placeholder {W : Type} (k : KeyCodes) (t : TextBox W)
    (validator : wstring → Bool) (ctrl : Bool) (clipboard : Option wstring)
    (hin : t.input = []) (hv : t.validator = some validator)
    (hrej : validator t.placeholder = false) :
    (t.keyPressed k k.ENTER ctrl clipboard).2 = [Call.defocus]
      ∧ ∀ text, Call.consumer text ∉ (t.keyPressed k k.ENTER ctrl clipboard).2 := by
  have hcalls : (t.keyPressed k k.ENTER ctrl clipboard).2 = [Call.defocus] := by
    rw [keyPressed_enter_calls]
    simp [TextBox.validity, hv, TextBox.getText, hin, hrej]
  refine ⟨hcalls, ?_⟩
  intro text
  rw [hcalls]
  simp

/-- C3 (instance): the box with an empty placeholder and the validator `rejectEmpty`. -/
theorem TextBox.enter_rejected_placeholder_witness :
    ({ nameBox with placeholder := [] } : TextBox Unit).input = []
      ∧ rejectEmpty [] = false
      ∧ (({ nameBox with placeholder := [] } : TextBox Unit).keyPressed glfwKeys
          glfwKeys.ENTER false none).2 = [Call.defocus] :=
  ⟨rfl, rfl,
   (TextBox.enter_rejected_placeholder glfwKeys { nameBox with placeholder := [] }
      rejectEmpty false none rfl rfl rfl).1⟩

/-- The state reached by `typed`. -/
theorem typed_state {W : Type} (t : TextBox W) (codepoint : Nat) :
    (t.typed codepoint).input = t.input ++ [wcharCast codepoint]
      ∧ (t.typed codepoint).validator = t.validator
      ∧ (t.typed codepoint).valid = (t.typed codepoint).validity := by
  unfold TextBox.typed TextBox.validate TextBox.validity
  cases hv : t.validator <;> simp [hv, TextBox.getText]

/-- Backspace on a non-empty buffer drops the last unit, re-validates and calls nothing. -/
theorem keyPressed_backspace {W : Type} (k : KeyCodes) (t : TextBox W) (ctrl : Bool)
    (clipboard : Option wstring) (s : wstring) (c : Nat) (hin : t.input = s ++ [c]) :
    (t.keyPressed k k.BACKSPACE ctrl clipboard).1.input = s
      ∧ (t.keyPressed k k.BACKSPACE ctrl clipboard).1.valid
          = (t.keyPressed k k.BACKSPACE ctrl clipboard).1.validity
      ∧ (t.keyPressed k k.BACKSPACE ctrl clipboard).2 = [] := by
  have h1 : ¬ (k.BACKSPACE = k.V) := fun h => k.v_ne_backspace h.symm
  unfold TextBox.keyPressed TextBox.validate TextBox.validity
  cases hv : t.validator <;> simp [hin, h1, TextBox.getText]

/-- C10: `typed(c)` appends the character `c` to the buffer and a following Backspace
restores the buffer; typing `a`, `b`, `c` into an empty buffer and then Backspace leaves
`"ab"`; after each of the two events the `valid` flag is the validator applied to
`getText()`, or true without a validator, and neither event makes a call. -/
theorem TextBox.typed_then_backspace {W : Type} (k : KeyCodes) (t : TextBox W) (c : Nat)
    (ctrl : Bool) (clipboard : Option wstring) (hc : c < 2 ^ 32) :
    (t.typed c).input = t.input ++ [c]
      ∧ (t.typed c).valid = (t.typed c).validity
      ∧ ((t.typed c).keyPressed k k.BACKSPACE ctrl clipboard).1.input = t.input
      ∧ ((t.typed c).keyPressed k k.BACKSPACE ctrl clipboard).1.valid
          = ((t.typed c).keyPressed k k.BACKSPACE ctrl clipboard).1.validity
      ∧ ((t.typed c).keyPressed k k.BACKSPACE ctrl clipboard).2 = []
      ∧ (t.input = [] →
          ((((t.typed 97).typed 98).typed 99).keyPressed k k.BACKSPACE ctrl
            clipboard).1.input = [97, 98]) := by
  have hcast : wcharCast c = c := by
    unfold wcharCast wcharBits
    exact Nat.mod_eq_of_lt hc
  have ht := typed_state t c
  rw [hcast] at ht
  have hb := keyPressed_backspace k (t.typed c) ctrl clipboard t.input c ht.1
  refine ⟨ht.1, ht.2.2, hb.1, hb.2.1, hb.2.2, ?_⟩
  intro hempty
  have h3 : (((t.typed 97).typed 98).typed 99).input = [97, 98] ++ [99] := by
    rw [(typed_state _ 99).1, (typed_state _ 98).1, (typed_state _ 97).1, hempty]
    decide
  exact (keyPressed_backspace k _ ctrl clipboard [97, 98] 99 h3).1

/-- C10 (instance): `a`, `b`, `c` typed into the empty buffer of `nameBox`, then
Backspace. -/
theorem TextBox.typed_then_backspace_witness :
    ((((nameBox.typed 97).typed 98).typed 99).keyPressed glfwKeys glfwKeys.BACKSPACE
        false none).1.input = [97, 98] :=
  (TextBox.typed_then_backspace glfwKeys nameBox 99 false none (by decide)).2.2.2.2.2 rfl

/-! ## CheckBox and InputBindBox -/

/-- C6: `CheckBox::mouseRelease` at any `(x, y)` negates `checked` and, when a consumer is
set, invokes it exactly once with the new value and otherwise calls nothing; the outcome is
the same at every other position `(x', y')`; toggling from `false` with a consumer set
invokes the consumer once with `true`. -/
theorem CheckBox.mouseRelease_toggles {W : Type} (c : CheckBox W) (x y : Int) :
    (c.mouseRelease x y).1.checked = (!c.checked)
      ∧ (c.mouseRelease x y).2
          = (if c.consumer then [Call.consumer (!c.checked)] else [])
      ∧ (∀ x' y' : Int, c.mouseRelease x' y' = c.mouseRelease x y)
      ∧ (({ c with checked := false, consumer := true } : CheckBox W).mouseRelease x y).2
          = [Call.consumer true] := by
  refine ⟨rfl, rfl, fun _ _ => rfl, rfl⟩

/-- C7: in an `InputBindBox`, `keyPressed(key)` with a key other than Escape leaves the
binding `(keyboard, key)` and `clicked(button)` leaves the binding `(mouse, button)`; each
of the two events calls `defocus` exactly once and leaves the node without focus. -/
theorem InputBindBox.rebinds (k : KeyCodes) (b : InputBindBox) (key button : Int)
    (hkey : key ≠ k.ESCAPE) :
    (b.keyPressed k key).1.binding = ⟨inputtype.keyboard, key⟩
      ∧ (b.keyPressed k key).2 = [Call.defocus]
      ∧ (b.keyPressed k key).1.node.isFocused = false
      ∧ (b.clicked button).1.binding = ⟨inputtype.mouse, button⟩
      ∧ (b.clicked button).2 = [Call.defocus]
      ∧ (b.clicked button).1.node.isFocused = false := by
  refine ⟨?_, rfl, rfl, rfl, rfl, rfl⟩
  simp [InputBindBox.keyPressed, hkey]

/-- C7 (instance): the key 65 and the mouse button 1 on `bindBox`. -/
theorem InputBindBox.rebinds_witness :
    (bindBox.keyPressed glfwKeys 65).1.binding = ⟨inputtype.keyboard, 65⟩
      ∧ (bindBox.clicked 1).1.binding = ⟨inputtype.mouse, 1⟩ :=
  ⟨(InputBindBox.rebinds glfwKeys bindBox 65 1 (by decide)).1,
   (InputBindBox.rebinds glfwKeys bindBox 65 1 (by decide)).2.2.2.1⟩

/-- C8: `keyPressed(ESCAPE)` on an `InputBindBox` leaves the type and the code of the
binding as they were and calls `defocus` exactly once. -/
theorem InputBindBox.escape_keeps_binding (k : KeyCodes) (b : InputBindBox) :
    (b.keyPressed k k.ESCAPE).1.binding.type = b.binding.type
      ∧ (b.keyPressed k k.ESCAPE).1.binding.code = b.binding.code
      ∧ (b.keyPressed k k.ESCAPE).2 = [Call.defocus] := by
  simp [InputBindBox.keyPressed]

/-! ## Label -/

/-- Earlier `setText` calls change nothing but the text. -/
theorem foldl_setText {W : Type} (l : Label W) (texts : List wstring) :
    (texts.foldl Label.setText l).supplier = l.supplier
      ∧ (texts.foldl Label.setText l).fontName = l.fontName
      ∧ (texts.foldl Label.setText l).node = l.node
      ∧ (texts.foldl Label.setText l).getText = (texts.getLast?).getD l.getText := by
  induction texts generalizing l with
  | nil => simp
  | cons a rest ih =>
    have h := ih (l.setText a)
    simp only [List.foldl_cons]
    refine ⟨h.1, h.2.1, h.2.2.1, ?_⟩
    rw [h.2.2.2]
    cases rest <;> simp [Label.setText, Label.getText, List.getLast?]

/-- A draw with a resolved font: the text afterwards is the supplier's value if a supplier
is set and the text before otherwise, and it is the text handed to the font. -/
theorem draw_text {W : Type} (l : Label W) (w : W) (assets : Assets) (font : Font)
    (hfont : assets.getFont l.fontName = some font) :
    ∃ (l2 : Label W) (x y : ℚ),
      l.draw w assets = some (l2, [DrawCmd.color l.node.color, DrawCmd.text l2.getText x y])
        ∧ l2.getText = (match l.supplier with
            | some supplier => supplier w
            | none => l.getText) := by
  unfold Label.draw
  cases hs : l.supplier with
  | none =>
    simp only [hfont]
    exact ⟨_, _, _, rfl, rfl⟩
  | some supplier =>
    have hf : assets.getFont (l.setText (supplier w)).fontName = some font := hfont
    simp only [hf]
    exact ⟨_, _, _, rfl, rfl⟩

/-- C9: on a label with a supplier, whatever `setText` calls came before, a draw (with the
font resolved) completes, and the text afterwards, which is the text drawn, is the value the
supplier returns in that draw: `"X"` for the supplier that always returns `"X"`. Without a
supplier the text after the draw is the last `setText` value. -/
theorem Label.draw_shows_supplied {W : Type} (l : Label W) (texts : List wstring) (w : W)
    (assets : Assets) (font : Font) (hfont : assets.getFont l.fontName = some font) :
    (∀ supplier : W → wstring, ∃ (l2 : Label W) (x y : ℚ),
        ((texts.foldl Label.setText (l.textSupplier (some supplier))).draw w assets
            = some (l2, [DrawCmd.color l.node.color, DrawCmd.text (supplier w) x y]))
          ∧ l2.getText = supplier w)
      ∧ (∀ X : wstring, ∃ (l2 : Label W) (x y : ℚ),
        ((texts.foldl Label.setText (l.textSupplier (some (fun _ => X)))).draw w assets
            = some (l2, [DrawCmd.color l.node.color, DrawCmd.text X x y]))
          ∧ l2.getText = X)
      ∧ (∀ value : wstring, ∃ (l2 : Label W) (x y : ℚ),
        (((texts.foldl Label.setText (l.textSupplier none)).setText value).draw w assets
            = some (l2, [DrawCmd.color l.node.color, DrawCmd.text value x y]))
          ∧ l2.getText = value) := by
  have key : ∀ supplier : W → wstring, ∃ (l2 : Label W) (x y : ℚ),
        ((texts.foldl Label.setText (l.textSupplier (some supplier))).draw w assets
            = some (l2, [DrawCmd.color l.node.color, DrawCmd.text (supplier w) x y]))
          ∧ l2.getText = supplier w := by
    intro supplier
    have hf := foldl_setText (l.textSupplier (some supplier)) texts
    have hfont2 : assets.getFont
        (texts.foldl Label.setText (l.textSupplier (some supplier))).fontName = some font := by
      rw [hf.2.1]; exact hfont
    obtain ⟨l2, x, y, hd, ht⟩ := draw_text _ w assets font hfont2
    rw [hf.1] at ht
    rw [hf.2.2.1] at hd
    have ht2 : l2.getText = supplier w := ht
    rw [ht2] at hd
    exact ⟨l2, x, y, hd, ht2⟩
  refine ⟨key, fun X => key (fun _ => X), ?_⟩
  intro value
  have hf := foldl_setText (l.textSupplier none) texts
  have hfont2 : assets.getFont
      ((texts.foldl Label.setText (l.textSupplier none)).setText value).fontName
        = some font := by
    show assets.getFont (texts.foldl Label.setText (l.textSupplier none)).fontName = some font
    rw [hf.2.1]; exact hfont
  obtain ⟨l2, x, y, hd, ht⟩ := draw_text _ w assets font hfont2
  have hsup : ((texts.foldl Label.setText (l.textSupplier none)).setText value).supplier
      = none := hf.1
  rw [hsup] at ht
  have hnode : ((texts.foldl Label.setText (l.textSupplier none)).setText value).node
      = l.node := hf.2.2.1
  rw [hnode] at hd
  have ht2 : l2.getText = value := ht
  rw [ht2] at hd
  exact ⟨l2, x, y, hd, ht2⟩

/-- C9 (instance): `labelX` after `setText("cd")`, drawn with a font that resolves. -/
theorem Label.draw_shows_supplied_witness :
    ∃ (l2 : Label Unit) (x y : ℚ),
      (([[99, 100]].foldl Label.setText
          ((Label.new [97, 98] defaultFontName).textSupplier (some (fun _ => [88])))).draw ()
            someAssets
          = some (l2, [DrawCmd.color (Label.new [97, 98] defaultFontName : Label Unit).node.color,
              DrawCmd.text [88] x y]))
        ∧ l2.getText = [88] :=
  (Label.draw_shows_supplied (Label.new [97, 98] defaultFontName) [[99, 100]] () someAssets
    ⟨fun s => 8 * (s.length : Int), 16, 0⟩ rfl).2.1 [88]

/-! ## TrackBar -/

/-- The clamped value lies between `min` and `max`. -/
theorem clampValue_bounds {W : Type} (t : TrackBar W) (value : ℚ) (h : t.min ≤ t.max) :
    t.min ≤ t.clampValue value ∧ t.clampValue value ≤ t.max := by
  unfold TrackBar.clampValue
  simp only
  split_ifs with h1 h2 h2
  · exact ⟨le_refl _, h⟩
  · exact ⟨not_lt.mp h2, le_refl _⟩
  · exact ⟨le_refl _, h⟩
  · exact ⟨not_lt.mp h2, not_lt.mp h1⟩

/-- A value already within `[min, max]` is not changed by the clamping. -/
theorem clampValue_of_mem {W : Type} (t : TrackBar W) (value : ℚ) (h1 : t.min ≤ value)
    (h2 : value ≤ t.max) : t.clampValue value = value := by
  unfold TrackBar.clampValue
  simp only
  rw [if_neg (not_lt.mpr h2), if_neg (not_lt.mpr h1)]

/-- Truncation of a rational between the integer `n ≥ 0` and `n + 1`. -/
theorem truncate_eq_of_nonneg (q : ℚ) (n : Int) (h0 : 0 ≤ q) (h1 : (n : ℚ) ≤ q)
    (h2 : q < (n : ℚ) + 1) : truncate q = n := by
  unfold truncate
  rw [if_pos h0]
  exact Int.floor_eq_iff.mpr ⟨h1, h2⟩

/-- Truncation of a negative rational between the integers `n - 1` and `n`. -/
theorem truncate_eq_of_neg (q : ℚ) (n : Int) (h0 : q < 0) (h1 : (n : ℚ) - 1 < q)
    (h2 : q ≤ (n : ℚ)) : truncate q = n := by
  unfold truncate
  rw [if_neg (not_le.mpr h0)]
  exact Int.ceil_eq_iff.mpr ⟨h1, h2⟩

/-- The result of `mouseMove` when the box width and the step are not zero and the
quotient converts to `int`. -/
theorem mouseMove_eq {W : Type} (t : TrackBar W) (x y : Int) (n : Int)
    (hw : t.node.size.x ≠ 0) (hs : t.step ≠ 0)
    (hn : truncate (t.clampValue (t.rawValue x) / t.step) = n)
    (hlo : INT_MIN ≤ n) (hhi : n ≤ INT_MAX) :
    t.mouseMove x y
      = some ({ t with value := (n : ℚ) * t.step },
          if t.consumer then [Call.consumer ((n : ℚ) * t.step)] else []) := by
  unfold TrackBar.mouseMove intCast
  simp [hw, hs, hn, hlo, hhi]

/-- C11: in every state of a `TextBox`, `keyPressed(ENTER)` calls `defocus` exactly once, as
its last call, whatever the validator answers and whether or not a consumer is set; the
node is without focus afterwards. -/
theorem TextBox.enter_defocuses_once {W : Type} (k : KeyCodes) (t : TextBox W) (ctrl : Bool)
    (clipboard : Option wstring) :
    ((t.keyPressed k k.ENTER ctrl clipboard).2.filter
        (fun call => decide (call = Call.defocus))).length = 1
      ∧ (t.keyPressed k k.ENTER ctrl clipboard).2.getLast? = some Call.defocus
      ∧ (t.keyPressed k k.ENTER ctrl clipboard).1.node.isFocused = false := by
  rw [keyPressed_enter_calls]
  refine ⟨?_, ?_, ?_⟩
  · cases (t.validity && t.consumer) <;> simp
  · cases (t.validity && t.consumer) <;> simp
  · have h1 : k.ENTER ≠ k.BACKSPACE := k.enter_ne_backspace
    have h2 : ¬ (k.ENTER = k.V) := fun h => k.v_ne_enter h.symm
    unfold TextBox.keyPressed TextBox.validate
    cases hv : t.validator <;> simp [h1, h2, UINode.defocus, UINode.isFocused]

/-- C12: with a supplier set, a draw of a box that is not focused leaves the buffer equal
to the value the supplier returns, and a draw of a focused box leaves the buffer as it was;
without a supplier a draw leaves the buffer as it was. -/
theorem TextBox.drawBackground_buffer {W : Type} (t : TextBox W) (w : W)
    (supplier : W → wstring) :
    ((t.setTextSupplier (some supplier)).drawBackground w).1.input
        = (if t.node.isFocused then t.input else supplier w)
      ∧ ((t.setTextSupplier none).drawBackground w).1.input = t.input := by
  unfold TextBox.drawBackground TextBox.setTextSupplier
  refine ⟨?_, ?_⟩
  · cases hf : t.node.isFocused <;> simp [hf] <;> split <;> rfl
  · cases hf : t.node.isFocused <;> simp [hf] <;> split <;> rfl

/-- The label after `drawBackground`: the placeholder in grey when the buffer, as the draw
leaves it, is empty, and the buffer in white otherwise. -/
theorem drawBackground_label_text {W : Type} (t : TextBox W) (w : W) :
    (t.drawBackground w).1.label.getText
        = (if (t.drawBackground w).1.input.isEmpty then t.placeholder
           else (t.drawBackground w).1.input)
      ∧ (t.drawBackground w).1.label.node.color
        = (if (t.drawBackground w).1.input.isEmpty then vec4.splat (1 / 2)
           else vec4.splat 1) := by
  unfold TextBox.drawBackground
  simp only [Label.getText, Label.setText, Label.setColor]
  cases hf : (!t.node.isFocused) <;> cases hs : t.supplier <;> simp <;> split <;> simp_all

/-- C13 (counterexample): a focused box with an empty buffer and the placeholder `"n"`
shows the placeholder after a draw, not the (empty) buffer. -/
theorem TextBox.focused_empty_shows_placeholder :
    ({ nameBox with node := { nameBox.node with focused := true } }
        : TextBox Unit).node.isFocused = true
      ∧ (({ nameBox with node := { nameBox.node with focused := true } }
          : TextBox Unit).drawBackground ()).1.input = []
      ∧ (({ nameBox with node := { nameBox.node with focused := true } }
          : TextBox Unit).drawBackground ()).1.label.getText = [110]
      ∧ nameBox.placeholder = [110] := by
  decide

/-- C13 (amended): after a draw the inner label displays the placeholder, in grey, if and
only if the buffer the draw leaves is empty, whether or not the box is focused; otherwise
it displays that buffer, in white. -/
theorem TextBox.drawBackground_label_shows {W : Type} (t : TextBox W) (w : W) :
    (t.drawBackground w).1.label.getText
        = (if (t.drawBackground w).1.input = [] then t.placeholder
           else (t.drawBackground w).1.input)
      ∧ ((t.drawBackground w).1.label.node.color = vec4.splat (1 / 2)
          ↔ (t.drawBackground w).1.input = [])
      ∧ ((t.drawBackground w).1.label.node.color = vec4.splat 1
          ↔ (t.drawBackground w).1.input ≠ []) := by
  have h := drawBackground_label_text t w
  have hne : vec4.splat (1 / 2) ≠ vec4.splat 1 := by
    intro h
    have hx := congrArg vec4.x h
    simp only [vec4.splat] at hx
    norm_num at hx
  cases hi : (t.drawBackground w).1.input with
  | nil =>
    rw [hi] at h
    have h1 : (t.drawBackground w).1.label.getText = t.placeholder := h.1.trans (if_pos rfl)
    have h2 : (t.drawBackground w).1.label.node.color = vec4.splat (1 / 2) :=
      h.2.trans (if_pos rfl)
    refine ⟨by rw [h1, if_pos rfl], ⟨fun _ => rfl, fun _ => h2⟩, ?_⟩
    rw [h2]
    exact ⟨fun hc => absurd hc hne, fun hc => absurd rfl hc⟩
  | cons a rest =>
    rw [hi] at h
    have hfalse : ¬ ((a :: rest).isEmpty = true) := by simp
    have hcons : ¬ (a :: rest = []) := by simp
    have h1 : (t.drawBackground w).1.label.getText = a :: rest := h.1.trans (if_neg hfalse)
    have h2 : (t.drawBackground w).1.label.node.color = vec4.splat 1 :=
      h.2.trans (if_neg hfalse)
    refine ⟨by rw [h1, if_neg hcons], ?_, ⟨fun _ => hcons, fun _ => h2⟩⟩
    rw [h2]
    exact ⟨fun hc => absurd hc.symm hne, fun hc => absurd hc hcons⟩

/-- The commands `drawBackground` sends to the surface. -/
theorem drawBackground_cmds {W : Type} (t : TextBox W) (w : W) :
    (t.drawBackground w).2
      = [DrawCmd.texture false,
         DrawCmd.color (if t.valid then
            (if t.node.focused then t.focusedColor
             else if t.node.hover then t.node.hoverColor else t.node.color)
           else t.invalidColor),
         DrawCmd.rect t.node.calcCoord.x t.node.calcCoord.y t.node.size.x t.node.size.y] := by
  rfl

/-- C15: the background colour `drawBackground` sets is the invalid colour whenever `valid`
is false, for every `focused` and `hover`; with `valid` true it is the focused colour if
the box is focused, else the hover colour if it is hovered, else the base colour. No other
part of the state enters the choice. -/
theorem TextBox.drawBackground_color {W : Type} (t : TextBox W) (w : W)
    (focused hover : Bool) :
    (({ t with valid := false, node := { t.node with focused := focused, hover := hover } }
        : TextBox W).drawBackground w).2
        = [DrawCmd.texture false, DrawCmd.color t.invalidColor,
           DrawCmd.rect t.node.calcCoord.x t.node.calcCoord.y t.node.size.x t.node.size.y]
      ∧ (({ t with valid := true, node := { t.node with focused := focused, hover := hover } }
        : TextBox W).drawBackground w).2
        = [DrawCmd.texture false,
           DrawCmd.color (if focused then t.focusedColor
             else if hover then t.node.hoverColor else t.node.color),
           DrawCmd.rect t.node.calcCoord.x t.node.calcCoord.y t.node.size.x t.node.size.y]
      ∧ (∀ (t2 : TextBox W) (w2 : W), t2.valid = t.valid → t2.node.focused = t.node.focused
          → t2.node.hover = t.node.hover → t2.invalidColor = t.invalidColor
          → t2.focusedColor = t.focusedColor → t2.node.hoverColor = t.node.hoverColor
          → t2.node.color = t.node.color
          → (t2.drawBackground w2).2.filter
                (fun cmd => match cmd with
                  | DrawCmd.color _ => true
                  | _ => false)
              = (t.drawBackground w).2.filter
                (fun cmd => match cmd with
                  | DrawCmd.color _ => true
                  | _ => false)) := by
  refine ⟨?_, ?_, ?_⟩
  · rw [drawBackground_cmds]
    simp [UINode.calcCoord]
  · rw [drawBackground_cmds]
    simp [UINode.calcCoord]
  · intro t2 w2 h1 h2 h3 h4 h5 h6 h7
    rw [drawBackground_cmds, drawBackground_cmds, h1, h2, h3, h4, h5, h6, h7]
    simp [List.filter]

/-! ## TrackBar: drawing and range -/

/-- The clamped raw value of `coarseBar` at cursor -50 is its minimum 5. -/
theorem coarseBar_clamped : coarseBar.clampValue (coarseBar.rawValue (-50)) = 5 := by
  have hraw : coarseBar.rawValue (-50) = -185 / 2 := by
    norm_num [TrackBar.rawValue, coarseBar, TrackBar.new, UINode.calcCoord, UINode.new,
      vec2.add]
  rw [hraw]
  norm_num [TrackBar.clampValue, coarseBar, TrackBar.new]

/-- C17: `coarseBar` has `min = 5 ≤ max = 100`, step 10 and a positive box width; dragged
to cursor -50, left of the box, the value is clamped to 5 and then quantized to 0, which
`mouseMove` stores and passes to the consumer although it is below `min`. -/
theorem TrackBar.mouseMove_below_min :
    coarseBar.min = 5 ∧ coarseBar.min ≤ coarseBar.max ∧ 0 < coarseBar.step
      ∧ 0 < coarseBar.node.size.x
      ∧ coarseBar.clampValue (coarseBar.rawValue (-50)) = 5
      ∧ coarseBar.mouseMove (-50) 0
          = some ({ coarseBar with value := 0 }, [Call.consumer 0]) := by
  have hstep : coarseBar.step = 10 := rfl
  have htr : truncate (coarseBar.clampValue (coarseBar.rawValue (-50)) / coarseBar.step)
      = 0 := by
    rw [coarseBar_clamped, hstep]
    exact truncate_eq_of_nonneg _ 0 (by norm_num) (by norm_num) (by norm_num)
  refine ⟨rfl, by norm_num [coarseBar, TrackBar.new], by norm_num [coarseBar, TrackBar.new],
    by norm_num [coarseBar, TrackBar.new, UINode.new], coarseBar_clamped, ?_⟩
  have hm := mouseMove_eq coarseBar (-50) 0 0
    (by norm_num [coarseBar, TrackBar.new, UINode.new])
    (by norm_num [coarseBar, TrackBar.new]) htr (by decide) (by decide)
  rw [hm]
  norm_num [coarseBar]

/-- When `min` and `max` are the multiples `a * step` and `b * step` of a positive step,
with `a` and `b` in the range of `int`, the value `mouseMove` produces lies between `min`
and `max`. -/
theorem mouseMove_in_range_on_grid {W : Type} (t : TrackBar W) (x y : Int) (a b : Int)
    (hs : 0 < t.step) (hw : 0 < t.node.size.x) (hmin : t.min = (a : ℚ) * t.step)
    (hmax : t.max = (b : ℚ) * t.step) (hab : a ≤ b) (ha : INT_MIN ≤ a) (hb : b ≤ INT_MAX) :
    ∃ r, t.mouseMove x y = some r ∧ t.min ≤ r.1.value ∧ r.1.value ≤ t.max := by
  have hmm : t.min ≤ t.max := by
    rw [hmin, hmax]
    exact mul_le_mul_of_nonneg_right (by exact_mod_cast hab) (le_of_lt hs)
  obtain ⟨hc1, hc2⟩ := clampValue_bounds t (t.rawValue x) hmm
  have hq1 : (a : ℚ) ≤ t.clampValue (t.rawValue x) / t.step := by
    rw [le_div_iff₀ hs, ← hmin]
    exact hc1
  have hq2 : t.clampValue (t.rawValue x) / t.step ≤ (b : ℚ) := by
    rw [div_le_iff₀ hs, ← hmax]
    exact hc2
  have hn : a ≤ truncate (t.clampValue (t.rawValue x) / t.step)
      ∧ truncate (t.clampValue (t.rawValue x) / t.step) ≤ b := by
    unfold truncate
    split_ifs with h0
    · refine ⟨Int.le_floor.mpr hq1, ?_⟩
      have h := Int.floor_le (t.clampValue (t.rawValue x) / t.step)
      exact_mod_cast le_trans h hq2
    · refine ⟨?_, Int.ceil_le.mpr hq2⟩
      have h := Int.le_ceil (t.clampValue (t.rawValue x) / t.step)
      exact_mod_cast le_trans hq1 h
  have hm := mouseMove_eq t x y _ (ne_of_gt hw) (ne_of_gt hs) rfl
    (le_trans ha hn.1) (le_trans hn.2 hb)
  refine ⟨_, hm, ?_, ?_⟩
  · show t.min ≤ (truncate (t.clampValue (t.rawValue x) / t.step) : ℚ) * t.step
    rw [hmin]
    exact mul_le_mul_of_nonneg_right (by exact_mod_cast hn.1) (le_of_lt hs)
  · show (truncate (t.clampValue (t.rawValue x) / t.step) : ℚ) * t.step ≤ t.max
    rw [hmax]
    exact mul_le_mul_of_nonneg_right (by exact_mod_cast hn.2) (le_of_lt hs)

/-! ## Missing assets -/

/-- C16 (counterexample): with assets in which no name resolves, `Image::draw` completes but
still issues its `rect` call, with no texture bound, and `Label::draw` has no result, since
it dereferences the null font handle. -/
theorem Image.draw_unresolved_still_draws :
    noAssets.getTexture blankImage.texture = none
      ∧ (blankImage.draw noAssets).2
          = [DrawCmd.texture false, DrawCmd.color blankImage.node.color,
             DrawCmd.rect 0 0 64 64]
      ∧ noAssets.getFont plainLabel.fontName = none
      ∧ (plainLabel.draw () noAssets).isNone = true := by
  refine ⟨rfl, ?_, rfl, rfl⟩
  simp [Image.draw, blankImage, Image.new, noAssets, UINode.new, UINode.calcCoord, vec2.add]

/-- C16 (amended): when the texture name of an `Image` does not resolve, `draw` completes
without reading the null handle: the image is left as it was, auto-resize or not, and the
surface receives the texture command with no texture bound, the colour and the `rect` call
over the declared size. -/
theorem Image.draw_unresolved (i : Image) (assets : Assets)
    (htex : assets.getTexture i.texture = none) :
    i.draw assets
      = (i, [DrawCmd.texture false, DrawCmd.color i.node.color,
          DrawCmd.rect i.node.calcCoord.x i.node.calcCoord.y i.node.size.x i.node.size.y]) := by
  unfold Image.draw
  simp only [htex]
  rfl

/-- C16 (instance): `blankImage` drawn with assets in which no name resolves. -/
theorem Image.draw_unresolved_witness :
    blankImage.draw noAssets
      = (blankImage, [DrawCmd.texture false, DrawCmd.color blankImage.node.color,
          DrawCmd.rect blankImage.node.calcCoord.x blankImage.node.calcCoord.y
            blankImage.node.size.x blankImage.node.size.y]) :=
  Image.draw_unresolved blankImage noAssets rfl

/-! ## Button layout -/

/-- The steps of `rangeIEEE`. -/
theorem rangeIEEE_eq_some {W : Type} (t : TrackBar W) (range : ℚ) :
    t.rangeIEEE = some range ↔
      ∃ span track, ieee.binary64 (t.max - t.min) = some span
        ∧ ieee.binary64 ((t.trackWidth : ℚ) * t.step) = some track
        ∧ ieee.binary64 (span + track) = some range := by
  simp [TrackBar.rangeIEEE, Option.bind_eq_some]

/-- The steps of `rawValueIEEE`. -/
theorem rawValueIEEE_eq_some {W : Type} (t : TrackBar W) (x : Int) (raw : ℚ) :
    t.rawValueIEEE x = some raw ↔
      ∃ v0 v1 range ratio v2, ieee.binary64 (x : ℚ) = some v0
        ∧ ieee.binary64 (v0 - t.node.calcCoord.x) = some v1
        ∧ t.rangeIEEE = some range
        ∧ t.node.size.x ≠ 0
        ∧ ieee.binary64 (v1 / t.node.size.x) = some ratio
        ∧ ieee.binary64 (ratio * range) = some v2
        ∧ ieee.binary64 (v2 + t.min) = some raw := by
  unfold TrackBar.rawValueIEEE
  by_cases hw : t.node.size.x = 0
  · simp [hw, Option.bind_eq_some]
  · simp [hw, Option.bind_eq_some]

/-- The steps of `mouseMoveIEEE`. -/
theorem mouseMoveIEEE_eq_some {W : Type} (t : TrackBar W) (x y : Int)
    (r : TrackBar W × List (Call ℚ)) :
    t.mouseMoveIEEE x y = some r ↔
      ∃ raw quotient n value, t.rawValueIEEE x = some raw
        ∧ t.step ≠ 0
        ∧ ieee.binary64 (t.clampValue raw / t.step) = some quotient
        ∧ intCast quotient = some n
        ∧ ieee.binary64 ((n : ℚ) * t.step) = some value
        ∧ r = ({ t with value := value },
            if t.consumer then [Call.consumer value] else []) := by
  unfold TrackBar.mouseMoveIEEE
  by_cases hs : t.step = 0
  · simp [hs, Option.bind_eq_some]
  · simp only [hs, if_false, Option.bind_eq_bind, Option.bind_eq_some, Option.some.injEq]
    constructor
    · rintro ⟨raw, hraw, q, hq, n, hn, v, hv, hr⟩
      exact ⟨raw, q, n, v, hraw, hs, hq, hn, hv, hr.symm⟩
    · rintro ⟨raw, q, n, v, hraw, _, hq, hn, hv, hr⟩
      exact ⟨raw, hraw, q, hq, n, hn, v, hv, hr.symm⟩

/-- The conversion to `int` truncates toward zero. -/
theorem intCast_eq_some {d : ℚ} {n : Int} (h : intCast d = some n) :
    n = truncate d ∧ INT_MIN ≤ n ∧ n ≤ INT_MAX := by
  unfold intCast at h
  split_ifs at h with hr
  have hn : truncate d = n := Option.some.inj h
  rw [← hn]
  exact ⟨rfl, hr.1, hr.2⟩

/-- Truncation of a non-positive rational is its ceiling. -/
theorem truncate_of_nonpos {q : ℚ} (h : q ≤ 0) : truncate q = ⌈q⌉ := by
  unfold truncate
  split_ifs with h0
  · have hq : q = 0 := le_antisymm h h0
    rw [hq]
    simp
  · rfl

/-- The drag of `percentBar` to cursor 35 in IEEE arithmetic: `35/550*110` is computed as
6.999999999999999 and the value stored is 6. -/
theorem percentBar_mouseMoveIEEE :
    percentBar.rawValueIEEE (35) = some ((7881299347898367 : ℚ) / 1125899906842624)
      ∧ percentBar.clampValue ((7881299347898367 : ℚ) / 1125899906842624) = ((7881299347898367 : ℚ) / 1125899906842624)
      ∧ percentBar.mouseMoveIEEE (35) 0
          = some ({ percentBar with value := (6 : ℚ) }, [Call.consumer (6 : ℚ)]) := by
  have h0 : ieee.binary64 (((35 : Int) : ℚ)) = some (35 : ℚ) := by
    have harg : (((35 : Int) : ℚ)) = (35 : ℚ) := by norm_num [percentBar, TrackBar.new, UINode.new, UINode.calcCoord, vec2.add]
    rw [harg]
    exact ieee.binary64_eq _ _ (5) 4925812092436480 (by norm_num) (by norm_num) (by norm_num)
      (by norm_num) (by norm_num) (by norm_num [abs_lt]) (by norm_num)
  have h1 : ieee.binary64 ((35 : ℚ) - percentBar.node.calcCoord.x) = some (35 : ℚ) := by
    have harg : ((35 : ℚ) - percentBar.node.calcCoord.x) = (35 : ℚ) := by norm_num [percentBar, TrackBar.new, UINode.new, UINode.calcCoord, vec2.add]
    rw [harg]
    exact ieee.binary64_eq _ _ (5) 4925812092436480 (by norm_num) (by norm_num) (by norm_num)
      (by norm_num) (by norm_num) (by norm_num [abs_lt]) (by norm_num)
  have hspan : ieee.binary64 (percentBar.max - percentBar.min) = some (100 : ℚ) := by
    have harg : (percentBar.max - percentBar.min) = (100 : ℚ) := by norm_num [percentBar, TrackBar.new, UINode.new, UINode.calcCoord, vec2.add]
    rw [harg]
    exact ieee.binary64_eq _ _ (6) 7036874417766400 (by norm_num) (by norm_num) (by norm_num)
      (by norm_num) (by norm_num) (by norm_num [abs_lt]) (by norm_num)
  have htrack : ieee.binary64 ((percentBar.trackWidth : ℚ) * percentBar.step) = some (10 : ℚ) := by
    have harg : ((percentBar.trackWidth : ℚ) * percentBar.step) = (10 : ℚ) := by norm_num [percentBar, TrackBar.new, UINode.new, UINode.calcCoord, vec2.add]
    rw [harg]
    exact ieee.binary64_eq _ _ (3) 5629499534213120 (by norm_num) (by norm_num) (by norm_num)
      (by norm_num) (by norm_num) (by norm_num [abs_lt]) (by norm_num)
  have hsum : ieee.binary64 ((100 : ℚ) + (10 : ℚ)) = some (110 : ℚ) := by
    have harg : ((100 : ℚ) + (10 : ℚ)) = (110 : ℚ) := by norm_num [percentBar, TrackBar.new, UINode.new, UINode.calcCoord, vec2.add]
    rw [harg]
    exact ieee.binary64_eq _ _ (6) 7740561859543040 (by norm_num) (by norm_num) (by norm_num)
      (by norm_num) (by norm_num) (by norm_num [abs_lt]) (by norm_num)
  have hratio : ieee.binary64 ((35 : ℚ) / percentBar.node.size.x) = some ((2292741628479525 : ℚ) / 36028797018963968) := by
    have harg : ((35 : ℚ) / percentBar.node.size.x) = ((7 : ℚ) / 110) := by norm_num [percentBar, TrackBar.new, UINode.new, UINode.calcCoord, vec2.add]
    rw [harg]
    exact ieee.binary64_eq _ _ (-4) 4585483256959050 (by norm_num) (by norm_num) (by norm_num)
      (by norm_num) (by norm_num) (by norm_num [abs_lt]) (by norm_num)
  have hprod : ieee.binary64 (((2292741628479525 : ℚ) / 36028797018963968) * (110 : ℚ)) = some ((7881299347898367 : ℚ) / 1125899906842624) := by
    have harg : (((2292741628479525 : ℚ) / 36028797018963968) * (110 : ℚ)) = ((126100789566373875 : ℚ) / 18014398509481984) := by norm_num [percentBar, TrackBar.new, UINode.new, UINode.calcCoord, vec2.add]
    rw [harg]
    exact ieee.binary64_eq _ _ (2) 7881299347898367 (by norm_num) (by norm_num) (by norm_num)
      (by norm_num) (by norm_num) (by norm_num [abs_lt]) (by norm_num)
  have hraw : ieee.binary64 (((7881299347898367 : ℚ) / 1125899906842624) + percentBar.min) = some ((7881299347898367 : ℚ) / 1125899906842624) := by
    have harg : (((7881299347898367 : ℚ) / 1125899906842624) + percentBar.min) = ((7881299347898367 : ℚ) / 1125899906842624) := by norm_num [percentBar, TrackBar.new, UINode.new, UINode.calcCoord, vec2.add]
    rw [harg]
    exact ieee.binary64_eq _ _ (2) 7881299347898367 (by norm_num) (by norm_num) (by norm_num)
      (by norm_num) (by norm_num) (by norm_num [abs_lt]) (by norm_num)
  have hclamp : percentBar.clampValue ((7881299347898367 : ℚ) / 1125899906842624) = ((7881299347898367 : ℚ) / 1125899906842624) := by
    apply clampValue_of_mem <;> norm_num [percentBar, TrackBar.new]
  have hquot : ieee.binary64 (percentBar.clampValue ((7881299347898367 : ℚ) / 1125899906842624) / percentBar.step) = some ((7881299347898367 : ℚ) / 1125899906842624) := by
    rw [hclamp]
    have harg : (((7881299347898367 : ℚ) / 1125899906842624) / percentBar.step) = ((7881299347898367 : ℚ) / 1125899906842624) := by norm_num [percentBar, TrackBar.new, UINode.new, UINode.calcCoord, vec2.add]
    rw [harg]
    exact ieee.binary64_eq _ _ (2) 7881299347898367 (by norm_num) (by norm_num) (by norm_num)
      (by norm_num) (by norm_num) (by norm_num [abs_lt]) (by norm_num)
  have hvalue : ieee.binary64 (((6 : Int) : ℚ) * percentBar.step) = some (6 : ℚ) := by
    have harg : (((6 : Int) : ℚ) * percentBar.step) = (6 : ℚ) := by norm_num [percentBar, TrackBar.new, UINode.new, UINode.calcCoord, vec2.add]
    rw [harg]
    exact ieee.binary64_eq _ _ (2) 6755399441055744 (by norm_num) (by norm_num) (by norm_num)
      (by norm_num) (by norm_num) (by norm_num [abs_lt]) (by norm_num)
  have hint : intCast ((7881299347898367 : ℚ) / 1125899906842624) = some (6) := by
    have htr : truncate ((7881299347898367 : ℚ) / 1125899906842624) = 6 := truncate_eq_of_nonneg _ (6) (by norm_num) (by norm_num) (by norm_num)
    unfold intCast
    rw [htr]
    decide
  have hrange : percentBar.rangeIEEE = some (110 : ℚ) :=
    (rangeIEEE_eq_some percentBar _).mpr ⟨_, _, hspan, htrack, hsum⟩
  have hw : percentBar.node.size.x ≠ 0 := by norm_num [percentBar, TrackBar.new, UINode.new]
  have hs : percentBar.step ≠ 0 := by norm_num [percentBar, TrackBar.new]
  have hrawv : percentBar.rawValueIEEE (35) = some ((7881299347898367 : ℚ) / 1125899906842624) :=
    (rawValueIEEE_eq_some percentBar _ _).mpr ⟨_, _, _, _, _, h0, h1, hrange, hw, hratio, hprod, hraw⟩
  refine ⟨hrawv, hclamp, ?_⟩
  exact (mouseMoveIEEE_eq_some percentBar _ 0 _).mpr
    ⟨_, _, _, _, hrawv, hs, hquot, hint, hvalue, rfl⟩

/-- The drag of `signedBar` to cursor 19 in IEEE arithmetic: the raw value is -0.5 and the
value stored is 0. -/
theorem signedBar_mouseMoveIEEE :
    signedBar.rawValueIEEE (19) = some (-(1 : ℚ) / 2)
      ∧ signedBar.clampValue (-(1 : ℚ) / 2) = (-(1 : ℚ) / 2)
      ∧ signedBar.mouseMoveIEEE (19) 0
          = some ({ signedBar with value := (0 : ℚ) }, [Call.consumer (0 : ℚ)]) := by
  have h0 : ieee.binary64 (((19 : Int) : ℚ)) = some (19 : ℚ) := by
    have harg : (((19 : Int) : ℚ)) = (19 : ℚ) := by norm_num [signedBar, TrackBar.new, UINode.new, UINode.calcCoord, vec2.add]
    rw [harg]
    exact ieee.binary64_eq _ _ (4) 5348024557502464 (by norm_num) (by norm_num) (by norm_num)
      (by norm_num) (by norm_num) (by norm_num [abs_lt]) (by norm_num)
  have h1 : ieee.binary64 ((19 : ℚ) - signedBar.node.calcCoord.x) = some (19 : ℚ) := by
    have harg : ((19 : ℚ) - signedBar.node.calcCoord.x) = (19 : ℚ) := by norm_num [signedBar, TrackBar.new, UINode.new, UINode.calcCoord, vec2.add]
    rw [harg]
    exact ieee.binary64_eq _ _ (4) 5348024557502464 (by norm_num) (by norm_num) (by norm_num)
      (by norm_num) (by norm_num) (by norm_num [abs_lt]) (by norm_num)
  have hspan : ieee.binary64 (signedBar.max - signedBar.min) = some (20 : ℚ) := by
    have harg : (signedBar.max - signedBar.min) = (20 : ℚ) := by norm_num [signedBar, TrackBar.new, UINode.new, UINode.calcCoord, vec2.add]
    rw [harg]
    exact ieee.binary64_eq _ _ (4) 5629499534213120 (by norm_num) (by norm_num) (by norm_num)
      (by norm_num) (by norm_num) (by norm_num [abs_lt]) (by norm_num)
  have htrack : ieee.binary64 ((signedBar.trackWidth : ℚ) * signedBar.step) = some (10 : ℚ) := by
    have harg : ((signedBar.trackWidth : ℚ) * signedBar.step) = (10 : ℚ) := by norm_num [signedBar, TrackBar.new, UINode.new, UINode.calcCoord, vec2.add]
    rw [harg]
    exact ieee.binary64_eq _ _ (3) 5629499534213120 (by norm_num) (by norm_num) (by norm_num)
      (by norm_num) (by norm_num) (by norm_num [abs_lt]) (by norm_num)
  have hsum : ieee.binary64 ((20 : ℚ) + (10 : ℚ)) = some (30 : ℚ) := by
    have harg : ((20 : ℚ) + (10 : ℚ)) = (30 : ℚ) := by norm_num [signedBar, TrackBar.new, UINode.new, UINode.calcCoord, vec2.add]
    rw [harg]
    exact ieee.binary64_eq _ _ (4) 8444249301319680 (by norm_num) (by norm_num) (by norm_num)
      (by norm_num) (by norm_num) (by norm_num [abs_lt]) (by norm_num)
  have hratio : ieee.binary64 ((19 : ℚ) / signedBar.node.size.x) = some ((1426139882000657 : ℚ) / 4503599627370496) := by
    have harg : ((19 : ℚ) / signedBar.node.size.x) = ((19 : ℚ) / 60) := by norm_num [signedBar, TrackBar.new, UINode.new, UINode.calcCoord, vec2.add]
    rw [harg]
    exact ieee.binary64_eq _ _ (-2) 5704559528002628 (by norm_num) (by norm_num) (by norm_num)
      (by norm_num) (by norm_num) (by norm_num [abs_lt]) (by norm_num)
  have hprod : ieee.binary64 (((1426139882000657 : ℚ) / 4503599627370496) * (30 : ℚ)) = some ((19 : ℚ) / 2) := by
    have harg : (((1426139882000657 : ℚ) / 4503599627370496) * (30 : ℚ)) = ((21392098230009855 : ℚ) / 2251799813685248) := by norm_num [signedBar, TrackBar.new, UINode.new, UINode.calcCoord, vec2.add]
    rw [harg]
    exact ieee.binary64_eq _ _ (3) 5348024557502464 (by norm_num) (by norm_num) (by norm_num)
      (by norm_num) (by norm_num) (by norm_num [abs_lt]) (by norm_num)
  have hraw : ieee.binary64 (((19 : ℚ) / 2) + signedBar.min) = some (-(1 : ℚ) / 2) := by
    have harg : (((19 : ℚ) / 2) + signedBar.min) = -((1 : ℚ) / 2) := by norm_num [signedBar, TrackBar.new, UINode.new, UINode.calcCoord, vec2.add]
    rw [harg]
    have hpos : ieee.binary64 (- -((1 : ℚ) / 2)) = some ((1 : ℚ) / 2) := by
      rw [neg_neg]
      exact ieee.binary64_eq _ _ (-1) 4503599627370496 (by norm_num) (by norm_num) (by norm_num)
        (by norm_num) (by norm_num) (by norm_num [abs_lt]) (by norm_num)
    have hneg := ieee.binary64_neg hpos
    have hval : (-(1 : ℚ) / 2) = -((1 : ℚ) / 2) := by norm_num
    rw [hval]
    exact hneg
  have hclamp : signedBar.clampValue (-(1 : ℚ) / 2) = (-(1 : ℚ) / 2) := by
    apply clampValue_of_mem <;> norm_num [signedBar, TrackBar.new]
  have hquot : ieee.binary64 (signedBar.clampValue (-(1 : ℚ) / 2) / signedBar.step) = some (-(1 : ℚ) / 2) := by
    rw [hclamp]
    have harg : ((-(1 : ℚ) / 2) / signedBar.step) = -((1 : ℚ) / 2) := by norm_num [signedBar, TrackBar.new, UINode.new, UINode.calcCoord, vec2.add]
    rw [harg]
    have hpos : ieee.binary64 (- -((1 : ℚ) / 2)) = some ((1 : ℚ) / 2) := by
      rw [neg_neg]
      exact ieee.binary64_eq _ _ (-1) 4503599627370496 (by norm_num) (by norm_num) (by norm_num)
        (by norm_num) (by norm_num) (by norm_num [abs_lt]) (by norm_num)
    have hneg := ieee.binary64_neg hpos
    have hval : (-(1 : ℚ) / 2) = -((1 : ℚ) / 2) := by norm_num
    rw [hval]
    exact hneg
  have hvalue : ieee.binary64 (((0 : Int) : ℚ) * signedBar.step) = some 0 := by
    have harg : (((0 : Int) : ℚ) * signedBar.step) = (0 : ℚ) := by norm_num [signedBar, TrackBar.new, UINode.new, UINode.calcCoord, vec2.add]
    rw [harg]
    exact ieee.binary64_zero
  have hint : intCast (-(1 : ℚ) / 2) = some (0) := by
    have htr : truncate (-(1 : ℚ) / 2) = 0 := truncate_eq_of_neg _ (0) (by norm_num) (by norm_num) (by norm_num)
    unfold intCast
    rw [htr]
    decide
  have hrange : signedBar.rangeIEEE = some (30 : ℚ) :=
    (rangeIEEE_eq_some signedBar _).mpr ⟨_, _, hspan, htrack, hsum⟩
  have hw : signedBar.node.size.x ≠ 0 := by norm_num [signedBar, TrackBar.new, UINode.new]
  have hs : signedBar.step ≠ 0 := by norm_num [signedBar, TrackBar.new]
  have hrawv : signedBar.rawValueIEEE (19) = some (-(1 : ℚ) / 2) :=
    (rawValueIEEE_eq_some signedBar _ _).mpr ⟨_, _, _, _, _, h0, h1, hrange, hw, hratio, hprod, hraw⟩
  refine ⟨hrawv, hclamp, ?_⟩
  exact (mouseMoveIEEE_eq_some signedBar _ 0 _).mpr
    ⟨_, _, _, _, hrawv, hs, hquot, hint, hvalue, rfl⟩

/-- C5 (counterexample): `signedBar` has `min ≤ max`, a positive step and a positive box
width; at cursor 19 the raw value, in IEEE arithmetic as in exact arithmetic, is -0.5, the
clamping leaves it, and `mouseMove` produces 0, which exceeds it, where
`step * floor(c / step)` is -1. -/
theorem TrackBar.mouseMoveIEEE_negative_not_floor :
    signedBar.min ≤ signedBar.max ∧ 0 < signedBar.step ∧ 0 < signedBar.node.size.x
      ∧ signedBar.rawValueIEEE 19 = some (-(1 : ℚ) / 2)
      ∧ signedBar.rawValue 19 = -(1 : ℚ) / 2
      ∧ signedBar.clampValue (-(1 : ℚ) / 2) = -(1 : ℚ) / 2
      ∧ signedBar.mouseMoveIEEE 19 0
          = some ({ signedBar with value := (0 : ℚ) }, [Call.consumer (0 : ℚ)])
      ∧ signedBar.step * ((⌊(-(1 : ℚ) / 2) / signedBar.step⌋ : Int) : ℚ) = -1 := by
  have h := signedBar_mouseMoveIEEE
  have hstep : signedBar.step = 1 := rfl
  have hfl : ⌊(-(1 : ℚ) / 2) / signedBar.step⌋ = -1 := by
    rw [hstep]
    exact Int.floor_eq_iff.mpr ⟨by norm_num, by norm_num⟩
  refine ⟨by norm_num [signedBar, TrackBar.new], by norm_num [signedBar, TrackBar.new],
    by norm_num [signedBar, TrackBar.new, UINode.new], h.1, ?_, h.2.1, h.2.2, ?_⟩
  · norm_num [TrackBar.rawValue, signedBar, TrackBar.new, UINode.calcCoord, UINode.new,
      vec2.add]
  · rw [hfl, hstep]
    norm_num

/-- C5 (amended): for `min ≤ max`, `step > 0` and a positive box width, whenever
`mouseMove` completes in finite `double` arithmetic with a defined conversion to `int`, the
value it stores and passes to the consumer is the `double` product `n * step`, where `n` is
the `double` quotient `c / step` truncated toward zero and `c`, between `min` and `max`, is
the raw value computed in `double` arithmetic and clamped. For `c ≥ 0` the truncation is
the floor of the computed quotient (quantized down); for `c < 0` it is its ceiling
(quantized toward zero). With `step = 1` the value is the integer `n` itself. -/
theorem TrackBar.mouseMoveIEEE_truncates {W : Type} (t : TrackBar W) (x y : Int)
    (r : TrackBar W × List (Call ℚ)) (hmm : t.min ≤ t.max) (hs : 0 < t.step)
    (_hw : 0 < t.node.size.x) (h : t.mouseMoveIEEE x y = some r) :
    ∃ (raw quotient : ℚ) (n : Int),
      t.rawValueIEEE x = some raw
        ∧ t.min ≤ t.clampValue raw ∧ t.clampValue raw ≤ t.max
        ∧ ieee.binary64 (t.clampValue raw / t.step) = some quotient
        ∧ n = truncate quotient ∧ INT_MIN ≤ n ∧ n ≤ INT_MAX
        ∧ ieee.binary64 ((n : ℚ) * t.step) = some r.1.value
        ∧ r = ({ t with value := r.1.value },
            if t.consumer then [Call.consumer r.1.value] else [])
        ∧ (0 ≤ t.clampValue raw → n = ⌊quotient⌋ ∧ (n : ℚ) ≤ quotient)
        ∧ (t.clampValue raw < 0 → n = ⌈quotient⌉ ∧ quotient ≤ (n : ℚ))
        ∧ (t.step = 1 → r.1.value = (n : ℚ)) := by
  obtain ⟨raw, quotient, n, value, hraw, _, hquot, hint, hvalue, hr⟩ :=
    (mouseMoveIEEE_eq_some t x y r).mp h
  obtain ⟨hn, hlo, hhi⟩ := intCast_eq_some hint
  obtain ⟨hc1, hc2⟩ := clampValue_bounds t raw hmm
  have hrv : r.1.value = value := by rw [hr]
  refine ⟨raw, quotient, n, hraw, hc1, hc2, hquot, hn, hlo, hhi, ?_, ?_, ?_, ?_, ?_⟩
  · rw [hrv]
    exact hvalue
  · rw [hrv]
    exact hr
  · intro hc
    have hq0 : 0 ≤ quotient := (ieee.binary64_sign hquot).1 (div_nonneg hc (le_of_lt hs))
    have hfl : n = ⌊quotient⌋ := by
      rw [hn]
      unfold truncate
      rw [if_pos hq0]
    exact ⟨hfl, by rw [hfl]; exact Int.floor_le quotient⟩
  · intro hc
    have hq0 : quotient ≤ 0 :=
      (ieee.binary64_sign hquot).2 (le_of_lt (div_neg_of_neg_of_pos hc hs))
    have hce : n = ⌈quotient⌉ := by
      rw [hn]
      exact truncate_of_nonpos hq0
    exact ⟨hce, by rw [hce]; exact Int.le_ceil quotient⟩
  · intro hone
    rw [hrv]
    have habs : |n| < 2 ^ 53 := by
      have h1 : INT_MIN = -2 ^ 31 := rfl
      have h2 : INT_MAX = 2 ^ 31 - 1 := rfl
      rw [abs_lt]
      constructor <;> omega
    have hexact := ieee.binary64_intCast n habs
    rw [hone, mul_one] at hvalue
    rw [hexact] at hvalue
    exact (Option.some.inj hvalue).symm

/-- C5 (instance): `percentBar` dragged to cursor 35, where the `double` computation of
`35/550*110` gives 6.999999999999999, stores 6. -/
theorem TrackBar.mouseMoveIEEE_truncates_witness :
    percentBar.mouseMoveIEEE 35 0
        = some ({ percentBar with value := (6 : ℚ) }, [Call.consumer (6 : ℚ)])
      ∧ ∃ (raw quotient : ℚ) (n : Int),
          percentBar.rawValueIEEE 35 = some raw
            ∧ percentBar.min ≤ percentBar.clampValue raw
            ∧ percentBar.clampValue raw ≤ percentBar.max
            ∧ ieee.binary64 (percentBar.clampValue raw / percentBar.step) = some quotient
            ∧ n = truncate quotient ∧ INT_MIN ≤ n ∧ n ≤ INT_MAX
            ∧ ieee.binary64 ((n : ℚ) * percentBar.step) = some (6 : ℚ)
            ∧ (0 ≤ percentBar.clampValue raw → n = ⌊quotient⌋ ∧ (n : ℚ) ≤ quotient)
            ∧ (percentBar.step = 1 → (6 : ℚ) = (n : ℚ)) := by
  have hm := percentBar_mouseMoveIEEE.2.2
  obtain ⟨raw, quotient, n, h1, h2, h3, h4, h5, h6, h7, h8, _, h10, _, h12⟩ :=
    TrackBar.mouseMoveIEEE_truncates percentBar 35 0 _
      (by norm_num [percentBar, TrackBar.new]) (by norm_num [percentBar, TrackBar.new])
      (by norm_num [percentBar, TrackBar.new, UINode.new]) hm
  exact ⟨hm, raw, quotient, n, h1, h2, h3, h4, h5, h6, h7, h8, h10, h12⟩

/-! ## TrackBar: the thumb -/

end gui

namespace content

/-- The `isdigit` of the C locale is the decimal-digit test. -/
theorem isdigit_eq (c : Char) : isdigit c = c.isDigit := by
  simp only [isdigit, Char.isDigit, Char.toNat]
  rw [Bool.eq_iff_iff]
  simp [UInt32.le_def, BitVec.le_def, UInt32.toNat]

/-- The `isalnum` of the C locale is the letter-or-digit test. -/
theorem isalnum_eq (c : Char) : isalnum c = c.isAlphanum := by
  simp only [isalnum, isdigit, Char.isAlphanum, Char.isAlpha, Char.isUpper, Char.isLower,
    Char.isDigit, Char.toNat]
  rw [Bool.eq_iff_iff]
  simp [UInt32.le_def, BitVec.le_def, UInt32.toNat]
  tauto

/-- The character loop fails exactly when one of the characters visited is illegal. -/
theorem checkChars_eq (id : string) (folder : String) (cs : List Char) :
    checkChars id folder cs
      = if (∃ c ∈ cs, c.isAlphanum = false ∧ c ≠ '_') then
          Except.error ⟨id, folder, "illegal character in content-pack id"⟩
        else Except.ok () := by
  induction cs with
  | nil => simp [checkChars]
  | cons c rest ih =>
    unfold checkChars
    rw [ih, isalnum_eq]
    by_cases hc : c.isAlphanum = false ∧ c ≠ '_'
    · simp [hc.1, hc.2]
    · by_cases h1 : c.isAlphanum = false
      · have h2 : c = '_' := by
          by_contra h
          exact hc ⟨h1, h⟩
        subst h2
        simp
      · have h3 : c.isAlphanum = true := by simpa using h1
        simp [h3]

/-- The test `isdigit(id[0])` holds exactly for an id that starts with a decimal digit. -/
theorem leading_digit_iff (id : string) :
    (match id with
      | c :: _ => isdigit c
      | [] => false) = true ↔ startsWithDigit id := by
  cases id with
  | nil => simp [startsWithDigit]
  | cons c rest => simp [startsWithDigit, isdigit_eq]

/-- C19: for an id of ASCII characters, `checkContentPackId` throws if and only if the
length of the id is below 2 or above 24, or the id starts with a decimal digit, or it
contains a character that is neither alphanumeric nor `_`, or it is one of the reserved
names `res`, `abs`, `local`, `core`, `user`, `world`, `none`, `null`; the error thrown is
that of the first of these conditions, in this order, that holds. -/
theorem checkContentPackId_raises_iff (id : string) (folder : String)
    (_hascii : ∀ c ∈ id, c.toNat < 128) :
    ((∃ e, checkContentPackId id folder = Except.error e)
        ↔ (lengthOutOfRange id ∨ startsWithDigit id ∨ hasIllegalCharacter id ∨ isReserved id))
      ∧ checkContentPackId id folder
        = (if lengthOutOfRange id then
            Except.error ⟨id, folder, "content-pack id length is out of range [2, 24]"⟩
          else if startsWithDigit id then
            Except.error ⟨id, folder, "content-pack id must not start with a digit"⟩
          else if hasIllegalCharacter id then
            Except.error ⟨id, folder, "illegal character in content-pack id"⟩
          else if isReserved id then
            Except.error ⟨id, folder, "this content-pack id is reserved"⟩
          else Except.ok ()) := by
  have hcode : checkContentPackId id folder
        = (if lengthOutOfRange id then
            Except.error ⟨id, folder, "content-pack id length is out of range [2, 24]"⟩
          else if startsWithDigit id then
            Except.error ⟨id, folder, "content-pack id must not start with a digit"⟩
          else if hasIllegalCharacter id then
            Except.error ⟨id, folder, "illegal character in content-pack id"⟩
          else if isReserved id then
            Except.error ⟨id, folder, "this content-pack id is reserved"⟩
          else Except.ok ()) := by
    unfold checkContentPackId
    by_cases hA : lengthOutOfRange id
    · have hb : (decide (id.length < 2) || decide (id.length > 24)) = true := by
        rcases hA with h | h <;> simp [h]
      rw [if_pos hb, if_pos hA]
    · have hb : ¬ ((decide (id.length < 2) || decide (id.length > 24)) = true) := by
        intro h
        apply hA
        simpa using h
      rw [if_neg hb, if_neg hA]
      have hdig := leading_digit_iff id
      by_cases hB : startsWithDigit id
      · rw [if_pos (hdig.mpr hB), if_pos hB]
      · rw [if_neg (fun h => hB (hdig.mp h)), if_neg hB, checkChars_eq]
        by_cases hC : hasIllegalCharacter id
        · rw [if_pos hC, if_pos hC]
        · rw [if_neg hC, if_neg hC]
          have hres : RESERVED_NAMES.contains id = true ↔ isReserved id := by
            simp [RESERVED_NAMES, isReserved]
          by_cases hD : isReserved id
          · simp only [hres.mpr hD, if_pos hD, if_true]
          · have hn : ¬ (RESERVED_NAMES.contains id = true) := fun h => hD (hres.mp h)
            rw [if_neg hn, if_neg hD]
  refine ⟨?_, hcode⟩
  rw [hcode]
  by_cases hA : lengthOutOfRange id
  · simp [hA]
  · by_cases hB : startsWithDigit id
    · simp only [if_neg hA, if_pos hB]
      exact ⟨fun _ => Or.inr (Or.inl hB), fun _ => ⟨_, rfl⟩⟩
    · by_cases hC : hasIllegalCharacter id
      · simp only [if_neg hA, if_neg hB, if_pos hC]
        exact ⟨fun _ => Or.inr (Or.inr (Or.inl hC)), fun _ => ⟨_, rfl⟩⟩
      · by_cases hD : isReserved id
        · simp only [if_neg hA, if_neg hB, if_neg hC, if_pos hD]
          exact ⟨fun _ => Or.inr (Or.inr (Or.inr hD)), fun _ => ⟨_, rfl⟩⟩
        · simp only [if_neg hA, if_neg hB, if_neg hC, if_neg hD]
          constructor
          · rintro ⟨e, he⟩
            cases he
          · intro h
            rcases h with h | h | h | h
            · exact absurd h hA
            · exact absurd h hB
            · exact absurd h hC
            · exact absurd h hD

/-- C19 (instance): the id `core` passes the length, leading-digit and character tests
and is rejected as reserved, while `base` is accepted. -/
theorem checkContentPackId_raises_iff_witness :
    checkContentPackId "core".toList "content/core"
        = Except.error
            ⟨"core".toList, "content/core", "this content-pack id is reserved"⟩
      ∧ ¬ (∃ e, checkContentPackId "base".toList "content/base" = Except.error e) := by
  refine ⟨?_, ?_⟩
  · rw [(checkContentPackId_raises_iff "core".toList "content/core" (by decide)).2]
    rfl
  · rw [(checkContentPackId_raises_iff "base".toList "content/base" (by decide)).1]
    decide

end content
